import Mathlib

/-!
Verification of the golang-lvs library (package `lvs`): a thin wrapper that
drives the `ipvsadm` command-line tool. The Go sources `service.go` and the
file defining `parseHostPort` are embedded below as executable Lean
definitions; the external process-execution collaborator (`backend`) is a
parameter of every operation that invokes it, and each operation additionally
returns the list of invocations it performed. Machine integers (`int` in Go)
are modelled as `Int`; where a library function checks the 64-bit range
(`strconv.Atoi`), the embedding carries the same check, and statements about
round trips take the representability bounds as hypotheses.
-/

namespace GolangLvs

/-! Utilities modelling the Go standard library pieces the sources use. -/

/-- Model of `strings.Split(s, " ")` at the character-list level: split on
every occurrence of the separator, keeping empty segments. -/
def splitChars (sep : Char) : List Char → List (List Char)
  | [] => [[]]
  | c :: rest =>
    if c = sep then [] :: splitChars sep rest
    else
      match splitChars sep rest with
      | [] => [[c]]
      | g :: gs => (c :: g) :: gs

/-- Model of Go `strings.Split(s, " ")`. -/
def splitGo (s : String) : List String :=
  (splitChars ' ' s.data).map String.mk

/-- Interleaves a list of segments with single separator characters — the
inverse shape of `splitChars`. -/
def glueSp : List (List Char) → List Char
  | [] => []
  | [x] => x
  | x :: xs => x ++ ' ' :: glueSp xs

/-- Decimal digit character for a value below ten. -/
def digitChar (n : Nat) : Char := Char.ofNat (48 + n)

/-- Decimal digits of a natural number, least-significant first, driven by
explicit fuel so that it is structurally recursive. -/
def natToDigitsRevFuel : Nat → Nat → List Char
  | 0, _ => []
  | f + 1, n =>
    if n < 10 then [digitChar n]
    else digitChar (n % 10) :: natToDigitsRevFuel f (n / 10)

/-- Decimal digits of a natural number, least-significant first. -/
def natToDigitsRev (n : Nat) : List Char := natToDigitsRevFuel (n + 1) n

/-- Decimal representation of a natural number, as produced by Go's
`fmt.Sprintf("%d", n)`. -/
def natToString (n : Nat) : String := String.mk (natToDigitsRev n).reverse

/-- Decimal representation of an integer, as produced by Go's
`fmt.Sprintf("%d", n)` (a leading minus sign for negative values). -/
def intToString (i : Int) : String :=
  if i < 0 then String.mk ('-' :: (natToDigitsRev (-i).toNat).reverse)
  else natToString i.toNat

/-- Value of a nonempty list of decimal digit characters, most-significant
first; `none` when the list is empty or contains a non-digit. -/
def digitsVal? (cs : List Char) : Option Nat :=
  if cs ≠ [] ∧ cs.all Char.isDigit then
    some (cs.foldl (fun a c => a * 10 + (c.toNat - 48)) 0)
  else none

/-- Model of Go `strconv.Atoi`: an optional sign followed by at least one
decimal digit; anything else is an error (`none`). Like the Go function, a
syntactically valid number outside the 64-bit machine-int range
(above `2^63 - 1`, or below `-2^63` for a negative sign) is a range error
(`none`). -/
def atoi (s : String) : Option Int :=
  match s.data with
  | [] => none
  | c :: rest =>
    if c = '-' then
      (digitsVal? rest).bind (fun (n : Nat) =>
        if n ≤ 2 ^ 63 then some (-(n : Int)) else none)
    else if c = '+' then
      (digitsVal? rest).bind (fun (n : Nat) =>
        if n < 2 ^ 63 then some ((n : Int)) else none)
    else
      (digitsVal? (c :: rest)).bind (fun (n : Nat) =>
        if n < 2 ^ 63 then some ((n : Int)) else none)

/-- Index of the last occurrence of a character in a character list. -/
def lastIdxOf (cs : List Char) (c : Char) : Option Nat :=
  match cs with
  | [] => none
  | x :: rest =>
    match lastIdxOf rest c with
    | some i => some (i + 1)
    | none => if x = c then some 0 else none

/-- Index of the first occurrence of a character in a character list. -/
def idxOf (cs : List Char) (c : Char) : Option Nat :=
  match cs with
  | [] => none
  | x :: rest =>
    if x = c then some 0
    else (idxOf rest c).map (· + 1)

/-- Whether a character occurs at or after a given index. -/
def containsFrom (cs : List Char) (c : Char) (j : Nat) : Bool :=
  (cs.drop j).contains c

/-- Model of Go `net.SplitHostPort` on character lists, following the Go
implementation: the port starts after the last colon; a bracketed host
`[..]` must have its closing bracket directly before that colon; stray
colons or brackets are errors (`none`). -/
def splitHostPortChars (cs : List Char) : Option (List Char × List Char) :=
  match lastIdxOf cs ':' with
  | none => none
  | some i =>
    if cs.head? = some '[' then
      match idxOf cs ']' with
      | none => none
      | some e =>
        if e + 1 = cs.length then none
        else if e + 1 = i then
          if containsFrom cs '[' 1 ∨ containsFrom cs ']' (e + 1) then none
          else some ((cs.take e).drop 1, cs.drop (i + 1))
        else none
    else
      if (cs.take i).contains ':' then none
      else if containsFrom cs '[' 0 ∨ containsFrom cs ']' 0 then none
      else some (cs.take i, cs.drop (i + 1))

/-- Model of Go `net.SplitHostPort` on strings. -/
def splitHostPort (s : String) : Option (String × String) :=
  (splitHostPortChars s.data).map (fun hp => (String.mk hp.1, String.mk hp.2))

/-- Embedding of `parseHostPort`: if `net.SplitHostPort` fails, or the port
part is not an integer, the whole input is returned as the host with
port 0; otherwise the split host and numeric port. -/
def parseHostPort (hostPort : String) : String × Int :=
  match splitHostPort hostPort with
  | none => (hostPort, 0)
  | some (h, p) =>
    match atoi p with
    | none => (hostPort, 0)
    | some n => (h, n)

/-! The data model. -/

/-- Errors produced by the library or surfaced from the backend. The named
constructors correspond to the package-level `errors.New` values; a backend
failure carries its message. -/
inductive LvsError where
  | InvalidServiceType
  | InvalidServiceScheduler
  | InvalidServerForwarder
  | InvalidServerPort
  | BackendError (msg : String)
deriving DecidableEq, Repr

/-- A backend real server. The `Server` struct itself is declared in a file
of this repository that is not part of the embedded sources; the spec
describes it as host/port, forwarding method, weight. -/
structure Server where
  Host : String
  Port : Int
  Forwarder : String
  Weight : Int
deriving DecidableEq, Repr

/-- The `Service` struct of `service.go` (the Go field `Type` is written
`Type'`, since `Type` is reserved in Lean). -/
structure Service where
  Host : String
  Port : Int
  Type' : String
  Scheduler : String
  Persistence : Int
  Netmask : String
  Servers : List Server
deriving DecidableEq, Repr

/-- The external process-execution collaborator: `backend(cmd, args...)`
returns `none` on success and the error on failure. -/
abbrev Backend := String → List String → Option LvsError

/-- Result of a state-mutating operation: the returned error, the service
value after the call, and the backend invocations performed. -/
structure OpResult where
  err : Option LvsError
  state : Service
  calls : List (String × List String)
deriving DecidableEq, Repr

/-! The flag maps of `service.go`. A Go map lookup returns the value and an
`ok` bit; this is an `Option`. Indexing without the `ok` bit yields the
zero value `""` for a missing key, which is the `...FlagD` variant. -/

/-- The `ServiceTypeFlag` map. -/
def ServiceTypeFlag (t : String) : Option String :=
  if t = "tcp" then some "-t"
  else if t = "udp" then some "-u"
  else if t = "fwmark" then some "-f"
  else if t = "" then some "-t"
  else none

/-- Go map indexing into `ServiceTypeFlag` without the `ok` bit. -/
def serviceTypeFlagD (t : String) : String := (ServiceTypeFlag t).getD ""

/-- The `ServiceSchedulerFlag` map. -/
def ServiceSchedulerFlag (t : String) : Option String :=
  if t = "rr" then some "rr"
  else if t = "wrr" then some "wrr"
  else if t = "lc" then some "lc"
  else if t = "wlc" then some "wlc"
  else if t = "lblc" then some "lblc"
  else if t = "lblcr" then some "lblcr"
  else if t = "dh" then some "dh"
  else if t = "sh" then some "sh"
  else if t = "sed" then some "sed"
  else if t = "nq" then some "nq"
  else if t = "" then some "wlc"
  else none

/-- Go map indexing into `ServiceSchedulerFlag` without the `ok` bit. -/
def serviceSchedulerFlagD (t : String) : String := (ServiceSchedulerFlag t).getD ""

/-- Modelled from the spec: the forwarding-method flag map of the missing
server file. The spec describes a forwarding-method field mirroring the
kernel subsystem's methods (gatewaying `g`, tunneling `i`, masquerading `m`,
with the empty string defaulting like the other flag maps). -/
def ServerForwarderFlag (t : String) : Option String :=
  if t = "g" then some "-g"
  else if t = "i" then some "-i"
  else if t = "m" then some "-m"
  else if t = "" then some "-g"
  else none

/-- Go map indexing into `ServerForwarderFlag` without the `ok` bit. -/
def serverForwarderFlagD (t : String) : String := (ServerForwarderFlag t).getD ""

/-- Modelled from the spec: the server's host/port rendering, following the
same convention as the service's (`host` alone when the port is 0). -/
def Server.getHostPort (r : Server) : String :=
  if r.Port = 0 then r.Host
  else r.Host ++ ":" ++ intToString r.Port

/-- Modelled from the spec: serialization of a server into the external
tool's argument grammar — host/port, forwarding-method flag, weight. -/
def Server.toString (r : Server) : String :=
  r.getHostPort ++ " " ++ serverForwarderFlagD r.Forwarder ++ " -w " ++ intToString r.Weight

/-- Modelled from the spec: validation of a server checks that its
forwarding method is one of the legal methods. -/
def Server.Validate (r : Server) : Option LvsError :=
  if (ServerForwarderFlag r.Forwarder).isSome then none
  else some .InvalidServerForwarder

/-! `service.go`. -/

/-- The per-server loop of `Service.Validate`: the first server failing its
own validation or the ipvsadm port rule decides the result. -/
def validateServers (port : Int) : List Server → Option LvsError
  | [] => none
  | r :: rest =>
    match r.Validate with
    | some e => some e
    | none =>
      if r.Forwarder ≠ "m" ∧ port ≠ r.Port then some .InvalidServerPort
      else validateServers port rest

/-- Embedding of `Service.Validate`. -/
def Service.Validate (s : Service) : Option LvsError :=
  if (ServiceTypeFlag s.Type').isNone then some .InvalidServiceType
  else if (ServiceSchedulerFlag s.Scheduler).isNone then some .InvalidServiceScheduler
  else validateServers s.Port s.Servers

/-- Embedding of `Service.FindServer` (a pointer in Go, an `Option` here). -/
def Service.FindServer (s : Service) (host : String) (port : Int) : Option Server :=
  s.Servers.find? (fun r => r.Host == host && r.Port == port)

/-- Embedding of `Service.getNetmask`. -/
def Service.getNetmask (s : Service) : List String :=
  if s.Netmask ≠ "" then ["-M", s.Netmask] else []

/-- Embedding of `Service.getPersistence`. -/
def Service.getPersistence (s : Service) : List String :=
  if s.Persistence ≠ 0 then ["-p", intToString s.Persistence] else []

/-- Embedding of `Service.getHostPort`. -/
def Service.getHostPort (s : Service) : String :=
  if s.Port = 0 then s.Host
  else s.Host ++ ":" ++ intToString s.Port

/-- Embedding of `Service.String`: the `-A` line followed by one `-a` line
per server, each terminated by a newline. -/
def Service.toString (s : Service) : String :=
  String.join
    (("-A " ++ serviceTypeFlagD s.Type' ++ " " ++ s.getHostPort ++ " -s "
        ++ serviceSchedulerFlagD s.Scheduler ++ " "
        ++ String.intercalate " " s.getPersistence ++ " "
        ++ String.intercalate " " s.getNetmask ++ "\n")
      :: s.Servers.map (fun r =>
        "-a " ++ serviceTypeFlagD s.Type' ++ " " ++ s.Host ++ ":" ++ intToString s.Port
          ++ " -r " ++ r.toString ++ "\n"))

/-- The token that follows a serialized line's final field: the newline of
`Service.String`'s format string, glued by `strings.Split` to the `-a` that
opens the next server line when one follows. -/
def srvTail : List Server → String
  | [] => "\n"
  | _ :: _ => "\n-a"

/-- The whitespace tokens contributed by the server lines of
`Service.String`: each line repeats the type flag and the service's
`host:port`, then `-r` and the server's own serialization, its final weight
gluing to the next line's opening through the unspaced newline. -/
def srvToks (TF HPc : String) : List Server → List String
  | [] => []
  | r :: rest =>
    TF :: HPc :: "-r" :: r.getHostPort :: serverForwarderFlagD r.Forwarder :: "-w"
      :: (intToString r.Weight ++ srvTail rest) :: srvToks TF HPc rest

/-- Argument list of `Service.Add`. -/
def addArgs (s : Service) : List String :=
  ["-A", serviceTypeFlagD s.Type', s.getHostPort, "-s", serviceSchedulerFlagD s.Scheduler]
    ++ (s.getPersistence ++ s.getNetmask)

/-- Embedding of `Service.Add`: one backend invocation, whose error is
returned unchanged. -/
def Service.Add (bk : Backend) (s : Service) : Option LvsError × List (String × List String) :=
  (bk "ipvsadm" (addArgs s), [("ipvsadm", addArgs s)])

/-- Argument list of `Service.Remove`. -/
def removeArgs (s : Service) : List String :=
  ["-D", serviceTypeFlagD s.Type', s.getHostPort]

/-- Embedding of `Service.Remove`. -/
def Service.Remove (bk : Backend) (s : Service) : Option LvsError × List (String × List String) :=
  (bk "ipvsadm" (removeArgs s), [("ipvsadm", removeArgs s)])

/-- Argument list of `Service.Zero`. -/
def zeroArgs (s : Service) : List String :=
  ["-Z", serviceTypeFlagD s.Type', s.getHostPort]

/-- Embedding of `Service.Zero`. -/
def Service.Zero (bk : Backend) (s : Service) : Option LvsError × List (String × List String) :=
  (bk "ipvsadm" (zeroArgs s), [("ipvsadm", zeroArgs s)])

/-- Argument list of the backend call in `Service.AddServer`. -/
def addServerArgs (s : Service) (server : Server) : List String :=
  ["-a", serviceTypeFlagD s.Type', s.getHostPort, "-r"] ++ splitGo server.toString

/-- Embedding of `Service.AddServer`: validate the server, enforce the
ipvsadm port rule, skip silently when the server is already present, invoke
the backend, and append to the in-memory list only on success. -/
def Service.AddServer (bk : Backend) (s : Service) (server : Server) : OpResult :=
  match server.Validate with
  | some e => ⟨some e, s, []⟩
  | none =>
    if server.Forwarder ≠ "m" ∧ s.Port ≠ server.Port then ⟨some .InvalidServerPort, s, []⟩
    else if (s.FindServer server.Host server.Port).isSome then ⟨none, s, []⟩
    else
      match bk "ipvsadm" (addServerArgs s server) with
      | some e => ⟨some e, s, [("ipvsadm", addServerArgs s server)]⟩
      | none =>
        ⟨none, { s with Servers := s.Servers ++ [server] }, [("ipvsadm", addServerArgs s server)]⟩

/-- Replacement of the first server matching the given server's host and
port, as performed by the splice in `Service.EditServer`. -/
def replaceFirst (server : Server) : List Server → List Server
  | [] => []
  | r :: rest =>
    if r.Host = server.Host ∧ r.Port = server.Port then server :: rest
    else r :: replaceFirst server rest

/-- Argument list of the backend call in `Service.EditServer`. -/
def editServerArgs (s : Service) (server : Server) : List String :=
  ["-e", serviceTypeFlagD s.Type', s.getHostPort, "-r"] ++ splitGo server.toString

/-- Embedding of `Service.EditServer`. -/
def Service.EditServer (bk : Backend) (s : Service) (server : Server) : OpResult :=
  match server.Validate with
  | some e => ⟨some e, s, []⟩
  | none =>
    if server.Forwarder ≠ "m" ∧ s.Port ≠ server.Port then ⟨some .InvalidServerPort, s, []⟩
    else
      match bk "ipvsadm" (editServerArgs s server) with
      | some e => ⟨some e, s, [("ipvsadm", editServerArgs s server)]⟩
      | none =>
        ⟨none, { s with Servers := replaceFirst server s.Servers },
          [("ipvsadm", editServerArgs s server)]⟩

/-- Deletion of the first server matching the given host and port, as
performed by the splice in `Service.RemoveServer`. -/
def removeFirst (host : String) (port : Int) : List Server → List Server
  | [] => []
  | r :: rest =>
    if r.Host = host ∧ r.Port = port then rest
    else r :: removeFirst host port rest

/-- Argument list of the backend call in `Service.RemoveServer`. -/
def removeServerArgs (s : Service) (host : String) (port : Int) : List String :=
  ["-d", serviceTypeFlagD s.Type', s.getHostPort, "-r", host ++ ":" ++ intToString port]

/-- Embedding of `Service.RemoveServer` (no validation: the backend is
always invoked). -/
def Service.RemoveServer (bk : Backend) (s : Service) (host : String) (port : Int) : OpResult :=
  match bk "ipvsadm" (removeServerArgs s host port) with
  | some e => ⟨some e, s, [("ipvsadm", removeServerArgs s host port)]⟩
  | none => ⟨none, { s with Servers := removeFirst host port s.Servers },
      [("ipvsadm", removeServerArgs s host port)]⟩

/-! `parseService`. -/

/-- The six flag groups of the `switch` in `parseService`. -/
inductive FlagKind where
  | tcp | udp | fwmark | sched | pers | mask
deriving DecidableEq, Repr

/-- Classification of a token by the `switch` in `parseService`. -/
def flagKind? (tok : String) : Option FlagKind :=
  if tok = "-t" ∨ tok = "--tcp-service" then some .tcp
  else if tok = "-u" ∨ tok = "--udp-service" then some .udp
  else if tok = "-f" ∨ tok = "--fwmark-service" then some .fwmark
  else if tok = "-s" ∨ tok = "--scheduler" then some .sched
  else if tok = "-p" ∨ tok = "--persistent" then some .pers
  else if tok = "-M" ∨ tok = "--netmask" then some .mask
  else none

/-- Field update performed for a recognized flag and its value token. -/
def applyFlag : FlagKind → String → Service → Service
  | .tcp, v, svc =>
    let hp := parseHostPort v
    { svc with Type' := "tcp", Host := hp.1, Port := hp.2 }
  | .udp, v, svc =>
    let hp := parseHostPort v
    { svc with Type' := "udp", Host := hp.1, Port := hp.2 }
  | .fwmark, v, svc =>
    let hp := parseHostPort v
    { svc with Type' := "fwmark", Host := hp.1, Port := hp.2 }
  | .sched, v, svc => { svc with Scheduler := v }
  | .pers, v, svc => { svc with Persistence := (atoi v).getD 300 }
  | .mask, v, svc => { svc with Netmask := v }

/-- The token loop of `parseService`. Go reads `exploded[i+1]` for a
recognized flag; when the flag is the last token that access is out of
bounds — a run-time panic, modelled as `none`. -/
def parseLoop : List String → Service → Option Service
  | [], svc => some svc
  | tok :: rest, svc =>
    match flagKind? tok with
    | none => parseLoop rest svc
    | some k =>
      match rest.head? with
      | none => none
      | some v => parseLoop rest (applyFlag k v svc)

/-- Embedding of `parseService`, starting from the defaults of the Go
composite literal (`Scheduler: "wlc"`, `Type: "tcp"`, `Persistence: 300`,
zero values elsewhere). -/
def parseService (serviceString : String) : Option Service :=
  parseLoop (splitGo serviceString)
    { Host := "", Port := 0, Type' := "tcp", Scheduler := "wlc",
      Persistence := 300, Netmask := "", Servers := [] }

/-! Spec-side definitions used to state refinement claims. -/

/-- The per-server check the spec describes: the server's own validation
error, or `InvalidServerPort` when the ipvsadm port rule fails. -/
def serverCheck (port : Int) (r : Server) : Option LvsError :=
  match r.Validate with
  | some e => some e
  | none =>
    if r.Forwarder ≠ "m" ∧ r.Port ≠ port then some .InvalidServerPort else none

/-! Concrete sample values used by closed-form theorems. -/

/-- A backend that always succeeds. -/
def bkOk : Backend := fun _ _ => none

/-- A backend that always fails with a fixed error. -/
def bkBoom : Backend := fun _ _ => some (.BackendError "boom")

/-- A sample valid tcp service on port 80 with no servers. -/
def sampleService : Service := ⟨"h", 80, "tcp", "wlc", 0, "", []⟩

/-- A sample valid gatewaying server on the sample service's port. -/
def sampleServerG : Server := ⟨"r", 80, "g", 1⟩

/-- A sample masquerading server on a different port. -/
def sampleServerM : Server := ⟨"r", 90, "m", 1⟩

/-- A sample server with an illegal forwarding method and a differing port. -/
def sampleServerBad : Server := ⟨"r", 90, "zzz", 1⟩

/-- A sample service whose only server passes its own validation but breaks
the ipvsadm port rule. -/
def c4Service : Service := ⟨"h", 80, "tcp", "wlc", 0, "", [⟨"r", 90, "g", 1⟩]⟩

/-- A sample valid service with zero persistence and empty netmask. -/
def c1CexService : Service := ⟨"h", 80, "tcp", "wlc", 0, "", []⟩

/-- A sample valid service with nonzero persistence and one server, used
for the amended round-trip statement. -/
def c1Service : Service := ⟨"vip", 80, "udp", "rr", 7, "", [⟨"r1", 80, "g", 2⟩]⟩

/-- A sample valid service on port 0, used for the amended round-trip
statement. -/
def c1PortZeroService : Service := ⟨"vip0", 0, "tcp", "wlc", 9, "", []⟩

/-- The record of composite-literal defaults that `parseService` starts
from. -/
def emptyService : Service :=
  { Host := "", Port := 0, Type' := "tcp", Scheduler := "wlc",
    Persistence := 300, Netmask := "", Servers := [] }

/-- A sample service containing one server, for frame-property witnesses. -/
def frameService : Service := ⟨"h", 80, "tcp", "wlc", 0, "", [⟨"r", 80, "g", 1⟩]⟩

/-- A replacement server with the same host and port as `frameService`'s
only server but a different weight. -/
def frameServerNew : Server := ⟨"r", 80, "g", 5⟩

/-! Helper lemmas about the operations. -/

/-- When a server passes validation, satisfies the port rule and is not yet
present, `AddServer` is exactly one backend invocation followed by the
conditional append. -/
theorem addServer_reach (bk : Backend) (s : Service) (r : Server)
    (hv : r.Validate = none) (hp : r.Forwarder = "m" ∨ s.Port = r.Port)
    (hf : s.FindServer r.Host r.Port = none) :
    Service.AddServer bk s r =
      match bk "ipvsadm" (addServerArgs s r) with
      | some e => ⟨some e, s, [("ipvsadm", addServerArgs s r)]⟩
      | none => ⟨none, { s with Servers := s.Servers ++ [r] },
          [("ipvsadm", addServerArgs s r)]⟩ := by
  have hcond : ¬(r.Forwarder ≠ "m" ∧ s.Port ≠ r.Port) := by
    rcases hp with h | h <;> simp [h]
  cases hbk : bk "ipvsadm" (addServerArgs s r) <;>
    simp [Service.AddServer, hv, hcond, hf, hbk]

/-- When a server passes validation and satisfies the port rule,
`EditServer` is exactly one backend invocation followed by the conditional
first-match replacement. -/
theorem editServer_reach (bk : Backend) (s : Service) (r : Server)
    (hv : r.Validate = none) (hp : r.Forwarder = "m" ∨ s.Port = r.Port) :
    Service.EditServer bk s r =
      match bk "ipvsadm" (editServerArgs s r) with
      | some e => ⟨some e, s, [("ipvsadm", editServerArgs s r)]⟩
      | none => ⟨none, { s with Servers := replaceFirst r s.Servers },
          [("ipvsadm", editServerArgs s r)]⟩ := by
  have hcond : ¬(r.Forwarder ≠ "m" ∧ s.Port ≠ r.Port) := by
    rcases hp with h | h <;> simp [h]
  cases hbk : bk "ipvsadm" (editServerArgs s r) <;>
    simp [Service.EditServer, hv, hcond, hbk]

/-- `RemoveServer` is exactly one backend invocation followed by the
conditional first-match deletion. -/
theorem removeServer_eq (bk : Backend) (s : Service) (host : String) (port : Int) :
    Service.RemoveServer bk s host port =
      match bk "ipvsadm" (removeServerArgs s host port) with
      | some e => ⟨some e, s, [("ipvsadm", removeServerArgs s host port)]⟩
      | none => ⟨none, { s with Servers := removeFirst host port s.Servers },
          [("ipvsadm", removeServerArgs s host port)]⟩ := rfl

/-- C5: `Service.Add` invokes the tool once, with exactly
`["-A", ServiceTypeFlag[Type], hostport, "-s", ServiceSchedulerFlag[Scheduler]]`,
followed by `["-p", Persistence]` iff the persistence is nonzero, followed by
`["-M", Netmask]` iff the netmask is nonempty, where `hostport` is the host
alone when the port is 0 and `host:port` otherwise. -/
theorem c5_add_argument_list (s : Service) (bk : Backend) :
    (Service.Add bk s).2 =
      [("ipvsadm",
        ["-A", serviceTypeFlagD s.Type',
            (if s.Port = 0 then s.Host else s.Host ++ ":" ++ intToString s.Port),
            "-s", serviceSchedulerFlagD s.Scheduler]
          ++ (if s.Persistence ≠ 0 then ["-p", intToString s.Persistence] else [])
          ++ (if s.Netmask ≠ "" then ["-M", s.Netmask] else []))] := by
  simp [Service.Add, addArgs, Service.getPersistence, Service.getNetmask, Service.getHostPort]

/-- C7: every operation that reaches the external invocation returns
exactly the backend's result — `nil` exactly on success, and otherwise the
backend's own error, produced by a single invocation with no retry,
substitution or wrapping. -/
theorem c7_errors_surfaced (bk : Backend) (s : Service) (r : Server)
    (host : String) (port : Int)
    (hv : r.Validate = none)
    (hp : r.Forwarder = "m" ∨ s.Port = r.Port)
    (hf : s.FindServer r.Host r.Port = none) :
    ((Service.Add bk s).1 = bk "ipvsadm" (addArgs s)
        ∧ (Service.Add bk s).2 = [("ipvsadm", addArgs s)])
    ∧ ((Service.Remove bk s).1 = bk "ipvsadm" (removeArgs s)
        ∧ (Service.Remove bk s).2 = [("ipvsadm", removeArgs s)])
    ∧ ((Service.Zero bk s).1 = bk "ipvsadm" (zeroArgs s)
        ∧ (Service.Zero bk s).2 = [("ipvsadm", zeroArgs s)])
    ∧ ((Service.AddServer bk s r).err = bk "ipvsadm" (addServerArgs s r)
        ∧ (Service.AddServer bk s r).calls = [("ipvsadm", addServerArgs s r)])
    ∧ ((Service.EditServer bk s r).err = bk "ipvsadm" (editServerArgs s r)
        ∧ (Service.EditServer bk s r).calls = [("ipvsadm", editServerArgs s r)])
    ∧ ((Service.RemoveServer bk s host port).err = bk "ipvsadm" (removeServerArgs s host port)
        ∧ (Service.RemoveServer bk s host port).calls
            = [("ipvsadm", removeServerArgs s host port)]) := by
  refine ⟨⟨rfl, rfl⟩, ⟨rfl, rfl⟩, ⟨rfl, rfl⟩, ?_, ?_, ?_⟩
  · rw [addServer_reach bk s r hv hp hf]
    cases bk "ipvsadm" (addServerArgs s r) <;> simp
  · rw [editServer_reach bk s r hv hp]
    cases bk "ipvsadm" (editServerArgs s r) <;> simp
  · rw [removeServer_eq bk s host port]
    cases bk "ipvsadm" (removeServerArgs s host port) <;> simp

/-- Witness for C7, at a failing backend and concrete service and server:
the backend's error comes back unchanged from `AddServer`. -/
theorem c7_witness :
    (Service.AddServer bkBoom sampleService sampleServerG).err
      = some (.BackendError "boom") := by
  have h := c7_errors_surfaced bkBoom sampleService sampleServerG "x" 1
    (by decide) (by decide) (by decide)
  exact h.2.2.2.1.1.trans rfl

/-- C2: for each of `AddServer`, `EditServer` and `RemoveServer`, when the
backend invocation fails its error is returned and the service — in
particular its server list — is exactly what it was; when it succeeds, `nil`
is returned and the list is respectively appended to, first-match replaced,
or first-match deleted. -/
theorem c2_state_updated_only_on_success (bk : Backend) (s : Service) (r : Server)
    (host : String) (port : Int)
    (hv : r.Validate = none)
    (hp : r.Forwarder = "m" ∨ s.Port = r.Port) :
    (s.FindServer r.Host r.Port = none →
      (∀ e, bk "ipvsadm" (addServerArgs s r) = some e →
          Service.AddServer bk s r = ⟨some e, s, [("ipvsadm", addServerArgs s r)]⟩)
      ∧ (bk "ipvsadm" (addServerArgs s r) = none →
          Service.AddServer bk s r =
            ⟨none, { s with Servers := s.Servers ++ [r] },
              [("ipvsadm", addServerArgs s r)]⟩))
    ∧ ((∀ e, bk "ipvsadm" (editServerArgs s r) = some e →
          Service.EditServer bk s r = ⟨some e, s, [("ipvsadm", editServerArgs s r)]⟩)
      ∧ (bk "ipvsadm" (editServerArgs s r) = none →
          Service.EditServer bk s r =
            ⟨none, { s with Servers := replaceFirst r s.Servers },
              [("ipvsadm", editServerArgs s r)]⟩))
    ∧ ((∀ e, bk "ipvsadm" (removeServerArgs s host port) = some e →
          Service.RemoveServer bk s host port
            = ⟨some e, s, [("ipvsadm", removeServerArgs s host port)]⟩)
      ∧ (bk "ipvsadm" (removeServerArgs s host port) = none →
          Service.RemoveServer bk s host port =
            ⟨none, { s with Servers := removeFirst host port s.Servers },
              [("ipvsadm", removeServerArgs s host port)]⟩)) := by
  refine ⟨fun hf => ⟨fun e he => ?_, fun he => ?_⟩,
    ⟨fun e he => ?_, fun he => ?_⟩, ⟨fun e he => ?_, fun he => ?_⟩⟩
  · rw [addServer_reach bk s r hv hp hf, he]
  · rw [addServer_reach bk s r hv hp hf, he]
  · rw [editServer_reach bk s r hv hp, he]
  · rw [editServer_reach bk s r hv hp, he]
  · rw [removeServer_eq bk s host port, he]
  · rw [removeServer_eq bk s host port, he]

/-- Witness for C2, at a succeeding and at a failing backend: on success the
server is appended; on failure the error comes back and the service value is
unchanged. -/
theorem c2_witness :
    Service.AddServer bkOk sampleService sampleServerG =
      ⟨none, { sampleService with Servers := sampleService.Servers ++ [sampleServerG] },
        [("ipvsadm", addServerArgs sampleService sampleServerG)]⟩
    ∧ Service.AddServer bkBoom sampleService sampleServerG =
      ⟨some (.BackendError "boom"), sampleService,
        [("ipvsadm", addServerArgs sampleService sampleServerG)]⟩ :=
  ⟨((c2_state_updated_only_on_success bkOk sampleService sampleServerG "x" 1
      (by decide) (by decide)).1 (by decide)).2 rfl,
   ((c2_state_updated_only_on_success bkBoom sampleService sampleServerG "x" 1
      (by decide) (by decide)).1 (by decide)).1 (.BackendError "boom") rfl⟩

/-- C10: `parseHostPort` never fails — when the input does not split as host
and port, or the port part is not an integer, the whole input comes back as
the host with port 0; otherwise the split host and the numeric port. -/
theorem c10_parse_host_port (s : String) :
    (splitHostPort s = none → parseHostPort s = (s, 0))
    ∧ (∀ h p, splitHostPort s = some (h, p) → atoi p = none → parseHostPort s = (s, 0))
    ∧ (∀ h p n, splitHostPort s = some (h, p) → atoi p = some n → parseHostPort s = (h, n)) := by
  unfold parseHostPort
  refine ⟨fun h => ?_, fun h p h1 h2 => ?_, fun h p n h1 h2 => ?_⟩ <;> simp_all

/-- Witness for C10, at an input that splits (`"h:80"`), one whose port part
is non-numeric (`"h:x"`), one that does not split at all (`"h"`), and one
whose port part overflows the 64-bit machine-int range. -/
theorem c10_witness :
    parseHostPort "h:80" = ("h", 80)
    ∧ parseHostPort "h:x" = ("h:x", 0)
    ∧ parseHostPort "h" = ("h", 0)
    ∧ parseHostPort "h:9223372036854775808" = ("h:9223372036854775808", 0) :=
  ⟨(c10_parse_host_port "h:80").2.2 "h" "80" 80 (by decide) (by decide),
   (c10_parse_host_port "h:x").2.1 "h" "x" (by decide) (by decide),
   (c10_parse_host_port "h").1 (by decide),
   (c10_parse_host_port "h:9223372036854775808").2.1 "h" "9223372036854775808"
     (by decide) (by decide)⟩

/-- C8: when the service already contains a server with the given host and
port, `AddServer` returns `nil` without invoking the backend and without
touching the service; consequently a second `AddServer` of the same server
after a successful one changes nothing. -/
theorem c8_addserver_idempotent (bk : Backend) (s : Service) (r : Server)
    (hv : r.Validate = none) (hp : r.Forwarder = "m" ∨ s.Port = r.Port) :
    ((s.FindServer r.Host r.Port).isSome →
        Service.AddServer bk s r = ⟨none, s, []⟩)
    ∧ ((Service.AddServer bk s r).err = none →
        Service.AddServer bk (Service.AddServer bk s r).state r =
          ⟨none, (Service.AddServer bk s r).state, []⟩) := by
  have hcond : ¬(r.Forwarder ≠ "m" ∧ s.Port ≠ r.Port) := by
    rcases hp with h | h <;> simp [h]
  constructor
  · intro hf
    simp [Service.AddServer, hv, hcond, hf]
  · intro hsucc
    cases hf : s.FindServer r.Host r.Port with
    | some x =>
      have h1 : Service.AddServer bk s r = ⟨none, s, []⟩ := by
        simp [Service.AddServer, hv, hcond, hf]
      rw [h1]
      simp [Service.AddServer, hv, hcond, hf]
    | none =>
      rw [addServer_reach bk s r hv hp hf] at hsucc
      cases hbk : bk "ipvsadm" (addServerArgs s r) with
      | some e => rw [hbk] at hsucc; simp at hsucc
      | none =>
        have h1 : Service.AddServer bk s r =
            ⟨none, { s with Servers := s.Servers ++ [r] },
              [("ipvsadm", addServerArgs s r)]⟩ := by
          rw [addServer_reach bk s r hv hp hf, hbk]
        rw [h1]
        have hflist : s.Servers.find? (fun x => x.Host == r.Host && x.Port == r.Port)
            = none := hf
        have hfind2 : ({ s with Servers := s.Servers ++ [r] } : Service).FindServer
            r.Host r.Port = some r := by
          unfold Service.FindServer
          simp only [List.find?_append, hflist, Option.none_or]
          simp [List.find?]
        simp [Service.AddServer, hv, hcond, hfind2]

/-- Witness for C8: adding a server already present does nothing, and a
successful add followed by the same add leaves the once-added state. -/
theorem c8_witness :
    Service.AddServer bkOk frameService ⟨"r", 80, "g", 1⟩ = ⟨none, frameService, []⟩
    ∧ Service.AddServer bkOk (Service.AddServer bkOk sampleService sampleServerG).state
        sampleServerG
      = ⟨none, (Service.AddServer bkOk sampleService sampleServerG).state, []⟩ :=
  ⟨(c8_addserver_idempotent bkOk frameService ⟨"r", 80, "g", 1⟩
      (by decide) (by decide)).1 (by decide),
   (c8_addserver_idempotent bkOk sampleService sampleServerG
      (by decide) (by decide)).2 (by decide)⟩

/-! First-match replacement and deletion lemmas for the frame property. -/

/-- Replacing when nothing matches is the identity. -/
theorem replaceFirst_of_no_match (r : Server) (l : List Server)
    (h : ∀ x ∈ l, ¬(x.Host = r.Host ∧ x.Port = r.Port)) : replaceFirst r l = l := by
  induction l with
  | nil => rfl
  | cons a t ih =>
    simp only [replaceFirst]
    rw [if_neg (h a (by simp)), ih (fun x hx => h x (by simp [hx]))]

/-- Replacing hits exactly the first matching element. -/
theorem replaceFirst_append (r m : Server) (pre post : List Server)
    (hpre : ∀ x ∈ pre, ¬(x.Host = r.Host ∧ x.Port = r.Port))
    (hm : m.Host = r.Host ∧ m.Port = r.Port) :
    replaceFirst r (pre ++ m :: post) = pre ++ r :: post := by
  induction pre with
  | nil => simp [replaceFirst, hm]
  | cons a t ih =>
    have hna : ¬(a.Host = r.Host ∧ a.Port = r.Port) := hpre a (by simp)
    simp only [List.cons_append, replaceFirst, if_neg hna]
    exact congrArg (List.cons a) (ih (fun x hx => hpre x (by simp [hx])))

/-- Deleting when nothing matches is the identity. -/
theorem removeFirst_of_no_match (host : String) (port : Int) (l : List Server)
    (h : ∀ x ∈ l, ¬(x.Host = host ∧ x.Port = port)) : removeFirst host port l = l := by
  induction l with
  | nil => rfl
  | cons a t ih =>
    simp only [removeFirst]
    rw [if_neg (h a (by simp)), ih (fun x hx => h x (by simp [hx]))]

/-- Deleting removes exactly the first matching element. -/
theorem removeFirst_append (host : String) (port : Int) (m : Server) (pre post : List Server)
    (hpre : ∀ x ∈ pre, ¬(x.Host = host ∧ x.Port = port))
    (hm : m.Host = host ∧ m.Port = port) :
    removeFirst host port (pre ++ m :: post) = pre ++ post := by
  induction pre with
  | nil => simp [removeFirst, hm]
  | cons a t ih =>
    have hna : ¬(a.Host = host ∧ a.Port = port) := hpre a (by simp)
    simp only [List.cons_append, removeFirst, if_neg hna]
    exact congrArg (List.cons a) (ih (fun x hx => hpre x (by simp [hx])))

/-- C9: on a successful backend call, `EditServer` replaces (and
`RemoveServer` deletes) at most the first element matching on host and
port, every other element and the relative order being preserved; with no
match the list is unchanged and the call still returns `nil`. -/
theorem c9_frame_property (bk : Backend) (s : Service) (r : Server)
    (host : String) (port : Int)
    (hv : r.Validate = none) (hp : r.Forwarder = "m" ∨ s.Port = r.Port)
    (hbkE : bk "ipvsadm" (editServerArgs s r) = none)
    (hbkR : bk "ipvsadm" (removeServerArgs s host port) = none) :
    ((Service.EditServer bk s r).err = none
      ∧ (∀ pre m post, s.Servers = pre ++ m :: post →
          (∀ x ∈ pre, ¬(x.Host = r.Host ∧ x.Port = r.Port)) →
          (m.Host = r.Host ∧ m.Port = r.Port) →
          (Service.EditServer bk s r).state.Servers = pre ++ r :: post)
      ∧ ((∀ x ∈ s.Servers, ¬(x.Host = r.Host ∧ x.Port = r.Port)) →
          (Service.EditServer bk s r).state.Servers = s.Servers))
    ∧ ((Service.RemoveServer bk s host port).err = none
      ∧ (∀ pre m post, s.Servers = pre ++ m :: post →
          (∀ x ∈ pre, ¬(x.Host = host ∧ x.Port = port)) →
          (m.Host = host ∧ m.Port = port) →
          (Service.RemoveServer bk s host port).state.Servers = pre ++ post)
      ∧ ((∀ x ∈ s.Servers, ¬(x.Host = host ∧ x.Port = port)) →
          (Service.RemoveServer bk s host port).state.Servers = s.Servers)) := by
  rw [editServer_reach bk s r hv hp, hbkE, removeServer_eq bk s host port, hbkR]
  refine ⟨⟨rfl, fun pre m post hsplit hpre hm => ?_, fun hnone => ?_⟩,
    rfl, fun pre m post hsplit hpre hm => ?_, fun hnone => ?_⟩
  · show replaceFirst r s.Servers = pre ++ r :: post
    rw [hsplit]; exact replaceFirst_append r m pre post hpre hm
  · show replaceFirst r s.Servers = s.Servers
    exact replaceFirst_of_no_match r s.Servers hnone
  · show removeFirst host port s.Servers = pre ++ post
    rw [hsplit]; exact removeFirst_append host port m pre post hpre hm
  · show removeFirst host port s.Servers = s.Servers
    exact removeFirst_of_no_match host port s.Servers hnone

/-- Witness for C9: editing replaces the matching server, removing deletes
it. -/
theorem c9_witness :
    (Service.EditServer bkOk frameService frameServerNew).state.Servers = [frameServerNew]
    ∧ (Service.RemoveServer bkOk frameService "r" 80).state.Servers = [] :=
  ⟨(c9_frame_property bkOk frameService frameServerNew "r" 80
      (by decide) (by decide) rfl rfl).1.2.1 [] ⟨"r", 80, "g", 1⟩ [] rfl
      (by simp) (by decide),
   (c9_frame_property bkOk frameService frameServerNew "r" 80
      (by decide) (by decide) rfl rfl).2.2.1 [] ⟨"r", 80, "g", 1⟩ [] rfl
      (by simp) (by decide)⟩

/-! Validation helpers. -/

/-- A failing server validation can only be the forwarder error. -/
theorem server_validate_range (r : Server) (e : LvsError)
    (h : r.Validate = some e) : e = .InvalidServerForwarder := by
  unfold Server.Validate at h
  split at h <;> simp_all

/-- The per-server loop accepts a list in which every server passes its own
validation and the port rule. -/
theorem validateServers_passes (port : Int) (l : List Server)
    (h : ∀ x ∈ l, x.Validate = none ∧ (x.Forwarder = "m" ∨ x.Port = port)) :
    validateServers port l = none := by
  induction l with
  | nil => rfl
  | cons a t ih =>
    obtain ⟨hva, hpa⟩ := h a (by simp)
    have hcond : ¬(a.Forwarder ≠ "m" ∧ port ≠ a.Port) := by
      rcases hpa with h' | h' <;> simp [h']
    simp only [validateServers, hva, hcond, if_false]
    exact ih (fun x hx => h x (by simp [hx]))

/-- The per-server loop stops with `InvalidServerPort` at the first server
that passes its own validation but breaks the port rule, provided all
preceding servers pass both checks. -/
theorem validateServers_first_port_fail (port : Int) (pre post : List Server) (r : Server)
    (hpre : ∀ x ∈ pre, x.Validate = none ∧ (x.Forwarder = "m" ∨ x.Port = port))
    (hv : r.Validate = none) (hf : r.Forwarder ≠ "m") (hport : r.Port ≠ port) :
    validateServers port (pre ++ r :: post) = some .InvalidServerPort := by
  induction pre with
  | nil =>
    have hcond : r.Forwarder ≠ "m" ∧ port ≠ r.Port := ⟨hf, fun h => hport h.symm⟩
    simp only [List.nil_append, validateServers, hv]
    rw [if_pos hcond]
  | cons a t ih =>
    obtain ⟨hva, hpa⟩ := hpre a (by simp)
    have hcond : ¬(a.Forwarder ≠ "m" ∧ port ≠ a.Port) := by
      rcases hpa with h' | h' <;> simp [h']
    simp only [List.cons_append, validateServers, hva, hcond, if_false]
    exact ih (fun x hx => hpre x (by simp [hx]))

/-- A failing per-server loop can only produce the forwarder or the port
error. -/
theorem validateServers_range (port : Int) (l : List Server) (e : LvsError)
    (h : validateServers port l = some e) :
    e = .InvalidServerForwarder ∨ e = .InvalidServerPort := by
  induction l with
  | nil => simp [validateServers] at h
  | cons a t ih =>
    unfold validateServers at h
    cases ha : a.Validate with
    | some e' =>
      rw [ha] at h
      injection h with h'
      exact Or.inl (h' ▸ server_validate_range a e' ha)
    | none =>
      rw [ha] at h
      by_cases hc : (a.Forwarder ≠ "m" ∧ port ≠ a.Port)
      · rw [if_pos hc] at h
        injection h with h'
        exact Or.inr h'.symm
      · rw [if_neg hc] at h
        exact ih h

/-- The per-server loop is the first hit of the spec's per-server check. -/
theorem validateServers_eq_findSome (port : Int) (l : List Server) :
    validateServers port l = l.findSome? (serverCheck port) := by
  induction l with
  | nil => simp [validateServers, List.findSome?]
  | cons a t ih =>
    rw [List.findSome?_cons]
    cases ha : a.Validate with
    | some e =>
      have hsc : serverCheck port a = some e := by simp [serverCheck, ha]
      rw [hsc]
      simp only [validateServers, ha]
    | none =>
      by_cases hc : (a.Forwarder ≠ "m" ∧ port ≠ a.Port)
      · have hsc : serverCheck port a = some .InvalidServerPort := by
          simp only [serverCheck, ha]
          rw [if_pos ⟨hc.1, fun h => hc.2 h.symm⟩]
        rw [hsc]
        simp only [validateServers, ha]
        rw [if_pos hc]
      · have hsc : serverCheck port a = none := by
          simp only [serverCheck, ha]
          rw [if_neg (fun h => hc ⟨h.1, fun hq => h.2 hq.symm⟩)]
        rw [hsc]
        simp only [validateServers, ha]
        rw [if_neg hc]
        exact ih

/-- Membership form of a defined `ServiceTypeFlag` entry. -/
theorem serviceTypeFlag_isSome_iff (t : String) :
    (ServiceTypeFlag t).isSome ↔ t ∈ ["tcp", "udp", "fwmark", ""] := by
  unfold ServiceTypeFlag
  split_ifs with h1 h2 h3 h4 <;> simp_all

set_option maxHeartbeats 1000000 in
/-- Membership form of a defined `ServiceSchedulerFlag` entry. -/
theorem serviceSchedulerFlag_isSome_iff (t : String) :
    (ServiceSchedulerFlag t).isSome ↔
      t ∈ ["rr", "wrr", "lc", "wlc", "lblc", "lblcr", "dh", "sh", "sed", "nq", ""] := by
  unfold ServiceSchedulerFlag
  split_ifs <;> simp_all

/-- Counterexample to C3 as stated: a server whose forwarding method is
illegal also has a non-`"m"` forwarder and a differing port, yet `AddServer`
(and `Validate` with it as only server) return the forwarder error, not
`InvalidServerPort`. -/
theorem c3_counterexample :
    sampleServerBad.Forwarder ≠ "m"
    ∧ sampleServerBad.Port ≠ sampleService.Port
    ∧ (Service.AddServer bkOk sampleService sampleServerBad).err
        = some .InvalidServerForwarder
    ∧ ({ sampleService with Servers := [sampleServerBad] } : Service).Validate
        = some .InvalidServerForwarder := by
  refine ⟨by decide, by decide, rfl, rfl⟩

/-- C3 (amended): for a server that passes its own validation, a non-`"m"`
forwarder with a port differing from the service's makes `Validate` (when
the server sits after only passing servers), `AddServer` and `EditServer`
return `InvalidServerPort`, the latter two without invoking the tool; with
forwarder `"m"` the differing port is accepted by all three. -/
theorem c3_port_rule (bk : Backend) (s : Service) (r : Server) (pre post : List Server)
    (ht : (ServiceTypeFlag s.Type').isSome)
    (hs : (ServiceSchedulerFlag s.Scheduler).isSome)
    (hv : r.Validate = none) :
    (r.Forwarder ≠ "m" → r.Port ≠ s.Port →
      ((s.Servers = pre ++ r :: post →
          (∀ x ∈ pre, x.Validate = none ∧ (x.Forwarder = "m" ∨ x.Port = s.Port)) →
          s.Validate = some .InvalidServerPort)
        ∧ Service.AddServer bk s r = ⟨some .InvalidServerPort, s, []⟩
        ∧ Service.EditServer bk s r = ⟨some .InvalidServerPort, s, []⟩))
    ∧ (r.Forwarder = "m" →
      (({ s with Servers := [r] } : Service).Validate = none
        ∧ (s.FindServer r.Host r.Port = none →
            (Service.AddServer bk s r).calls = [("ipvsadm", addServerArgs s r)])
        ∧ (Service.EditServer bk s r).calls = [("ipvsadm", editServerArgs s r)])) := by
  obtain ⟨tf, htf⟩ := Option.isSome_iff_exists.mp ht
  obtain ⟨sf, hsf⟩ := Option.isSome_iff_exists.mp hs
  constructor
  · intro hfm hport
    have hcond : r.Forwarder ≠ "m" ∧ s.Port ≠ r.Port := ⟨hfm, fun h => hport h.symm⟩
    refine ⟨fun hsplit hpre => ?_, ?_, ?_⟩
    · unfold Service.Validate
      rw [htf, hsf]
      simp only [Option.isNone_some, if_false]
      rw [hsplit]
      exact validateServers_first_port_fail s.Port pre post r hpre hv hfm
        (fun h => hport (h ▸ rfl))
    · simp only [Service.AddServer, hv]
      rw [if_pos hcond]
    · simp only [Service.EditServer, hv]
      rw [if_pos hcond]
  · intro hm
    refine ⟨?_, fun hf => ?_, ?_⟩
    · unfold Service.Validate
      rw [htf, hsf]
      simp only [Option.isNone_some, if_false]
      exact validateServers_passes s.Port [r] (by simp [hv, hm])
    · rw [addServer_reach bk s r hv (Or.inl hm) hf]
      cases bk "ipvsadm" (addServerArgs s r) <;> simp
    · rw [editServer_reach bk s r hv (Or.inl hm)]
      cases bk "ipvsadm" (editServerArgs s r) <;> simp

/-- Witness for the amended C3: a valid gatewaying server on port 90 is
rejected with `InvalidServerPort` by a port-80 service, while a
masquerading one on port 90 reaches the backend invocation. -/
theorem c3_witness :
    Service.AddServer bkOk sampleService ⟨"r", 90, "g", 1⟩
      = ⟨some .InvalidServerPort, sampleService, []⟩
    ∧ (Service.EditServer bkOk sampleService sampleServerM).calls
        = [("ipvsadm", editServerArgs sampleService sampleServerM)] :=
  ⟨((c3_port_rule bkOk sampleService ⟨"r", 90, "g", 1⟩ [] []
      (by decide) (by decide) (by decide)).1 (by decide) (by decide)).2.1,
   ((c3_port_rule bkOk sampleService sampleServerM [] []
      (by decide) (by decide) (by decide)).2 (by decide)).2.2⟩

/-- Counterexample to C4 as stated: a service whose only server passes its
own validation, where the claim predicts `nil`, while `Validate` returns
`InvalidServerPort` by the (unmentioned) port rule. -/
theorem c4_counterexample :
    (∀ x ∈ c4Service.Servers, x.Validate = none)
    ∧ c4Service.Validate = some .InvalidServerPort := by
  refine ⟨by decide, rfl⟩

/-- C4 (amended): `Validate` returns `InvalidServiceType` exactly when the
type is not one of tcp/udp/fwmark/empty; otherwise `InvalidServiceScheduler`
exactly when the scheduler is not one of the ten algorithms or empty;
otherwise the first failing per-server check in list order — the server's
own validation error, or `InvalidServerPort` under the port rule — and `nil`
when every server passes both. -/
theorem c4_validate_characterization (s : Service) :
    (s.Validate = some .InvalidServiceType ↔ s.Type' ∉ ["tcp", "udp", "fwmark", ""])
    ∧ (s.Validate = some .InvalidServiceScheduler ↔
        (s.Type' ∈ ["tcp", "udp", "fwmark", ""]
          ∧ s.Scheduler ∉ ["rr", "wrr", "lc", "wlc", "lblc", "lblcr", "dh", "sh", "sed", "nq", ""]))
    ∧ (s.Type' ∈ ["tcp", "udp", "fwmark", ""] →
        s.Scheduler ∈ ["rr", "wrr", "lc", "wlc", "lblc", "lblcr", "dh", "sh", "sed", "nq", ""] →
        s.Validate = s.Servers.findSome? (serverCheck s.Port)) := by
  by_cases hT : (ServiceTypeFlag s.Type').isSome
  · by_cases hS : (ServiceSchedulerFlag s.Scheduler).isSome
    · obtain ⟨tf, htf⟩ := Option.isSome_iff_exists.mp hT
      obtain ⟨sf, hsf⟩ := Option.isSome_iff_exists.mp hS
      have hval : s.Validate = validateServers s.Port s.Servers := by
        unfold Service.Validate
        rw [htf, hsf]
        simp
      refine ⟨?_, ?_, fun _ _ => hval.trans (validateServers_eq_findSome _ _)⟩
      · rw [hval]
        simp only [serviceTypeFlag_isSome_iff] at hT
        simp only [hT, not_true, iff_false]
        intro h
        rcases validateServers_range s.Port s.Servers _ h with h' | h' <;> exact absurd h' (by decide)
      · rw [hval]
        simp only [serviceSchedulerFlag_isSome_iff] at hS
        simp only [hS, not_true, and_false, iff_false]
        intro h
        rcases validateServers_range s.Port s.Servers _ h with h' | h' <;> exact absurd h' (by decide)
    · obtain ⟨tf, htf⟩ := Option.isSome_iff_exists.mp hT
      have hval : s.Validate = some .InvalidServiceScheduler := by
        unfold Service.Validate
        rw [htf, Option.not_isSome_iff_eq_none.mp hS]
        simp
      have hT' := (serviceTypeFlag_isSome_iff _).mp hT
      have hS' : s.Scheduler ∉ ["rr", "wrr", "lc", "wlc", "lblc", "lblcr", "dh", "sh", "sed", "nq", ""] :=
        fun hmem => hS ((serviceSchedulerFlag_isSome_iff _).mpr hmem)
      refine ⟨?_, ?_, fun _ hmem => absurd hmem hS'⟩
      · rw [hval]
        simp [hT']
      · rw [hval]
        simp [hT', hS']
  · have hval : s.Validate = some .InvalidServiceType := by
      unfold Service.Validate
      rw [Option.not_isSome_iff_eq_none.mp hT]
      simp
    have hT' : s.Type' ∉ ["tcp", "udp", "fwmark", ""] :=
      fun hmem => hT ((serviceTypeFlag_isSome_iff _).mpr hmem)
    refine ⟨?_, ?_, fun hmem _ => absurd hmem hT'⟩
    · rw [hval]
      simp [hT']
    · rw [hval]
      simp [hT']

/-- Witness for the amended C4: on the sample service with a port-rule
violation, `Validate` agrees with the first-failing-check description. -/
theorem c4_witness :
    c4Service.Validate = c4Service.Servers.findSome? (serverCheck c4Service.Port) :=
  (c4_validate_characterization c4Service).2.2 (by decide) (by decide)

/-! Stepping lemmas for the `parseService` token loop. -/

/-- A token that is no recognized flag is skipped. -/
theorem parseLoop_cons_none (tok : String) (rest : List String) (svc : Service)
    (h : flagKind? tok = none) :
    parseLoop (tok :: rest) svc = parseLoop rest svc := by
  simp [parseLoop, h]

/-- A recognized flag consumes the next token as its value. -/
theorem parseLoop_cons_some (tok v : String) (rest : List String) (svc : Service)
    (k : FlagKind) (h : flagKind? tok = some k) :
    parseLoop (tok :: v :: rest) svc = parseLoop (v :: rest) (applyFlag k v svc) := by
  simp [parseLoop, h]

/-- A recognized flag in last position is the out-of-bounds read. -/
theorem parseLoop_last_flag (tok : String) (svc : Service) (k : FlagKind)
    (h : flagKind? tok = some k) :
    parseLoop [tok] svc = none := by
  simp [parseLoop, h]

/-- The loop returns a service whenever the final token is not a recognized
flag. -/
theorem parseLoop_total (toks : List String) (svc : Service)
    (h : ∀ t, toks.getLast? = some t → flagKind? t = none) :
    ∃ out, parseLoop toks svc = some out := by
  induction toks generalizing svc with
  | nil => exact ⟨svc, rfl⟩
  | cons tok rest ih =>
    cases rest with
    | nil =>
      have htok : flagKind? tok = none := h tok (by simp)
      rw [parseLoop_cons_none tok [] svc htok]
      exact ⟨svc, rfl⟩
    | cons v rest' =>
      have hlast : ∀ t, (v :: rest').getLast? = some t → flagKind? t = none := by
        intro t ht
        exact h t (by rw [List.getLast?_cons_cons]; exact ht)
      cases hk : flagKind? tok with
      | none =>
        rw [parseLoop_cons_none tok (v :: rest') svc hk]
        exact ih svc hlast
      | some k =>
        rw [parseLoop_cons_some tok v rest' svc k hk]
        exact ih (applyFlag k v svc) hlast

/-- Counterexample to C6 as stated: a recognized flag as the last token is
an out-of-bounds slice access in Go — parsing does not return a record. -/
theorem c6_counterexample :
    parseService "-t" = none ∧ parseService "-p" = none := by
  exact ⟨rfl, rfl⟩

/-- C6 (amended): `parseService` terminates and returns a record on every
input in which no recognized flag token stands last, and a non-numeric
value after `-p` sets the persistence to 300 rather than failing. -/
theorem c6_parse_totality :
    (∀ str : String,
        (∀ t, (splitGo str).getLast? = some t → flagKind? t = none) →
        ∃ out, parseService str = some out)
    ∧ (∀ (v : String) (rest : List String) (svc : Service), atoi v = none →
        parseLoop ("-p" :: v :: rest) svc
          = parseLoop (v :: rest) { svc with Persistence := 300 }) := by
  constructor
  · intro str h
    exact parseLoop_total (splitGo str) _ h
  · intro v rest svc hv
    rw [parseLoop_cons_some "-p" v rest svc .pers (by decide)]
    simp [applyFlag, hv]

/-- Witness for the amended C6: `"-p x"` parses (its last token is not a
flag), with the non-numeric persistence value falling back to 300. -/
theorem c6_witness :
    (∃ out, parseService "-p x" = some out)
    ∧ parseLoop ["-p", "x", "y"] emptyService
        = parseLoop ["x", "y"] { emptyService with Persistence := 300 } :=
  ⟨c6_parse_totality.1 "-p x"
    (by
      intro t ht
      have hx : (splitGo "-p x").getLast? = some "x" := by decide
      rw [hx] at ht
      injection ht with h
      exact h ▸ (by decide : flagKind? "x" = none)),
   c6_parse_totality.2 "x" ["y"] emptyService (by decide)⟩

/-! Decimal formatting round-trip. -/

/-- The data of a packed string is the packed list. -/
theorem data_mk (l : List Char) : (String.mk l).data = l := rfl

/-- A packed data list is the string itself. -/
theorem mk_data (s : String) : String.mk s.data = s := by cases s; rfl

/-- The digit expansion does not depend on the fuel, as long as it
suffices. -/
theorem natToDigitsRevFuel_irrel (f1 : Nat) : ∀ (f2 n : Nat), n < f1 → n < f2 →
    natToDigitsRevFuel f1 n = natToDigitsRevFuel f2 n := by
  induction f1 with
  | zero => intro f2 n h1 _; omega
  | succ g ih =>
    intro f2 n h1 h2
    cases f2 with
    | zero => omega
    | succ g2 =>
      simp only [natToDigitsRevFuel]
      by_cases hn : n < 10
      · rw [if_pos hn, if_pos hn]
      · rw [if_neg hn, if_neg hn]
        have hd : n / 10 < n := Nat.div_lt_self (by omega) (by omega)
        exact congrArg (List.cons _) (ih g2 (n / 10) (by omega) (by omega))

/-- Recursion equation for the digit expansion. -/
theorem natToDigitsRev_unfold (n : Nat) :
    natToDigitsRev n = if n < 10 then [digitChar n]
      else digitChar (n % 10) :: natToDigitsRev (n / 10) := by
  have h1 : natToDigitsRev n
      = if n < 10 then [digitChar n]
        else digitChar (n % 10) :: natToDigitsRevFuel n (n / 10) := rfl
  rw [h1]
  by_cases hn : n < 10
  · rw [if_pos hn, if_pos hn]
  · rw [if_neg hn, if_neg hn]
    exact congrArg (List.cons _)
      (natToDigitsRevFuel_irrel n (n / 10 + 1) (n / 10)
        (by omega) (by omega))

/-- A digit character is a digit. -/
theorem digitChar_isDigit (m : Nat) (h : m < 10) : (digitChar m).isDigit := by
  interval_cases m <;> decide

/-- Numeric value of a digit character. -/
theorem digitChar_toNat (m : Nat) (h : m < 10) : (digitChar m).toNat = 48 + m := by
  interval_cases m <;> decide

/-- Every character of the digit expansion is a digit. -/
theorem natToDigitsRev_all_digit (n : Nat) : ∀ c ∈ natToDigitsRev n, c.isDigit := by
  induction n using Nat.strong_induction_on with
  | _ n ih =>
    rw [natToDigitsRev_unfold]
    by_cases hn : n < 10
    · rw [if_pos hn]
      intro c hc
      simp at hc
      subst hc
      exact digitChar_isDigit n hn
    · rw [if_neg hn]
      intro c hc
      rcases List.mem_cons.mp hc with rfl | hc
      · exact digitChar_isDigit (n % 10) (Nat.mod_lt _ (by omega))
      · exact ih (n / 10) (Nat.div_lt_self (by omega) (by omega)) c hc

/-- The digit expansion is never empty. -/
theorem natToDigitsRev_ne_nil (n : Nat) : natToDigitsRev n ≠ [] := by
  rw [natToDigitsRev_unfold]
  by_cases hn : n < 10
  · rw [if_pos hn]; simp
  · rw [if_neg hn]; simp

/-- Folding the decimal accumulator over the reversed expansion recovers
the number. -/
theorem foldl_digits_rev_val (n : Nat) :
    List.foldl (fun a c => a * 10 + (c.toNat - 48)) 0 (natToDigitsRev n).reverse = n := by
  induction n using Nat.strong_induction_on with
  | _ n ih =>
    rw [natToDigitsRev_unfold]
    by_cases hn : n < 10
    · rw [if_pos hn]
      simp [digitChar_toNat n hn]
    · rw [if_neg hn]
      rw [List.reverse_cons, List.foldl_append]
      rw [ih (n / 10) (Nat.div_lt_self (by omega) (by omega))]
      simp only [List.foldl]
      rw [digitChar_toNat (n % 10) (Nat.mod_lt _ (by omega))]
      omega

/-- The digit check-and-fold accepts the reversed expansion. -/
theorem digitsVal?_natToDigitsRev (n : Nat) :
    digitsVal? (natToDigitsRev n).reverse = some n := by
  have hne : (natToDigitsRev n).reverse ≠ [] := by
    simp [natToDigitsRev_ne_nil n]
  have hall : ((natToDigitsRev n).reverse).all Char.isDigit := by
    rw [List.all_eq_true]
    intro c hc
    exact natToDigitsRev_all_digit n c (List.mem_reverse.mp hc)
  unfold digitsVal?
  rw [if_pos ⟨hne, hall⟩]
  exact congrArg some (foldl_digits_rev_val n)

/-- A digit character is none of the characters the grammar treats
specially. -/
theorem isDigit_ne_special (c : Char) (h : c.isDigit) :
    c ≠ '-' ∧ c ≠ '+' ∧ c ≠ ' ' ∧ c ≠ ':' ∧ c ≠ '[' ∧ c ≠ ']' ∧ c ≠ '\n' := by
  refine ⟨?_, ?_, ?_, ?_, ?_, ?_, ?_⟩ <;>
    (intro hq; subst hq; exact absurd h (by decide))

/-- `Atoi` undoes the decimal formatting of a natural number in the 64-bit
range. -/
theorem atoi_natToString (n : Nat) (hn : n < 2 ^ 63) :
    atoi (natToString n) = some (n : Int) := by
  have hval := digitsVal?_natToDigitsRev n
  unfold natToString atoi
  rw [data_mk]
  cases hrev : (natToDigitsRev n).reverse with
  | nil => exact absurd hrev (by simp [natToDigitsRev_ne_nil n])
  | cons c rest =>
    have hcdig : c.isDigit := by
      have hmem : c ∈ (natToDigitsRev n).reverse := by rw [hrev]; simp
      exact natToDigitsRev_all_digit n c (List.mem_reverse.mp hmem)
    obtain ⟨hm, hp, _⟩ := isDigit_ne_special c hcdig
    rw [hrev] at hval
    simp only
    rw [if_neg hm, if_neg hp, hval]
    show (if n < 2 ^ 63 then some ((n : Int)) else none) = some (n : Int)
    rw [if_pos hn]

/-- `Atoi` on a minus sign followed by further characters takes the negative
branch. -/
theorem atoi_neg_digits (l : List Char) :
    atoi (String.mk ('-' :: l)) = (digitsVal? l).bind (fun (n : Nat) =>
      if n ≤ 2 ^ 63 then some (-(n : Int)) else none) := rfl

/-- `Atoi` undoes the decimal formatting of an integer in the 64-bit
range. -/
theorem atoi_intToString (i : Int) (h1 : -(2 ^ 63) ≤ i) (h2 : i ≤ 2 ^ 63 - 1) :
    atoi (intToString i) = some i := by
  by_cases h : i < 0
  · unfold intToString
    rw [if_pos h, atoi_neg_digits, digitsVal?_natToDigitsRev]
    show (if (-i).toNat ≤ 2 ^ 63 then some (-(((-i).toNat : Nat) : Int)) else none) = some i
    have hle : (-i).toNat ≤ 2 ^ 63 := by
      rw [Int.toNat_le]
      push_cast
      linarith
    rw [if_pos hle]
    congr 1
    omega
  · unfold intToString
    rw [if_neg h]
    have hlt : i.toNat < 2 ^ 63 := by
      have h0 : (0 : Int) ≤ i := not_lt.mp h
      have : (i.toNat : Int) = i := Int.toNat_of_nonneg h0
      have hcast : ((2 ^ 63 : Nat) : Int) = 2 ^ 63 := by push_cast
      by_contra hge
      push_neg at hge
      have : ((2 ^ 63 : Nat) : Int) ≤ (i.toNat : Int) := by exact_mod_cast hge
      rw [hcast] at this
      omega
    rw [atoi_natToString i.toNat hlt]
    congr 1
    omega

/-- Every character of a formatted integer is a sign or a digit. -/
theorem intToString_chars (i : Int) :
    ∀ c ∈ (intToString i).data, c = '-' ∨ c.isDigit := by
  unfold intToString
  by_cases h : i < 0
  · rw [if_pos h, data_mk]
    intro c hc
    rcases List.mem_cons.mp hc with rfl | hc
    · exact Or.inl rfl
    · exact Or.inr (natToDigitsRev_all_digit _ c (List.mem_reverse.mp hc))
  · rw [if_neg h]
    unfold natToString
    rw [data_mk]
    intro c hc
    exact Or.inr (natToDigitsRev_all_digit _ c (List.mem_reverse.mp hc))

/-- A formatted integer contains no separator, colon, bracket or newline
character. -/
theorem intToString_no_special (i : Int) :
    ∀ c ∈ (intToString i).data, c ≠ ' ' ∧ c ≠ ':' ∧ c ≠ '[' ∧ c ≠ ']' := by
  intro c hc
  rcases intToString_chars i c hc with rfl | hd
  · exact ⟨by decide, by decide, by decide, by decide⟩
  · obtain ⟨_, _, h1, h2, h3, h4, _⟩ := isDigit_ne_special c hd
    exact ⟨h1, h2, h3, h4⟩

/-! Splitting lemmas. -/

/-- Unfolding of `splitChars` at a non-separator head. -/
theorem splitChars_cons_ne (sep c : Char) (t : List Char) (h : c ≠ sep) :
    splitChars sep (c :: t) = match splitChars sep t with
      | [] => [[c]]
      | g :: gs => (c :: g) :: gs := by
  simp only [splitChars, if_neg h]

/-- Splitting a separator-free list yields that single segment. -/
theorem splitChars_no_sep (sep : Char) (xs : List Char) (h : sep ∉ xs) :
    splitChars sep xs = [xs] := by
  induction xs with
  | nil => rfl
  | cons c t ih =>
    have hc : c ≠ sep := fun hq => h (hq ▸ List.mem_cons_self c t)
    have ht : sep ∉ t := fun hq => h (List.mem_cons_of_mem c hq)
    rw [splitChars_cons_ne sep c t hc, ih ht]

/-- Splitting at the separator after a separator-free prefix. -/
theorem splitChars_append (sep : Char) (xs ys : List Char) (h : sep ∉ xs) :
    splitChars sep (xs ++ sep :: ys) = xs :: splitChars sep ys := by
  induction xs with
  | nil => simp [splitChars]
  | cons c t ih =>
    have hc : c ≠ sep := fun hq => h (hq ▸ List.mem_cons_self c t)
    have ht : sep ∉ t := fun hq => h (List.mem_cons_of_mem c hq)
    show splitChars sep (c :: (t ++ sep :: ys)) = (c :: t) :: splitChars sep ys
    rw [splitChars_cons_ne sep c _ hc, ih ht]

/-- Splitting the eight-token line shape produced by the serializer. -/
theorem splitChars_eight (w1 w2 w3 w4 w5 w6 w7 w8 : String)
    (h1 : ' ' ∉ w1.data) (h2 : ' ' ∉ w2.data) (h3 : ' ' ∉ w3.data) (h4 : ' ' ∉ w4.data)
    (h5 : ' ' ∉ w5.data) (h6 : ' ' ∉ w6.data) (h7 : ' ' ∉ w7.data) (h8 : ' ' ∉ w8.data) :
    splitChars ' ' (w1.data ++ ' ' :: (w2.data ++ ' ' :: (w3.data ++ ' '
        :: (w4.data ++ ' ' :: (w5.data ++ ' ' :: (w6.data ++ ' '
        :: (w7.data ++ ' ' :: w8.data)))))))
      = [w1.data, w2.data, w3.data, w4.data, w5.data, w6.data, w7.data, w8.data] := by
  rw [splitChars_append _ _ _ h1, splitChars_append _ _ _ h2, splitChars_append _ _ _ h3,
    splitChars_append _ _ _ h4, splitChars_append _ _ _ h5, splitChars_append _ _ _ h6,
    splitChars_append _ _ _ h7, splitChars_no_sep _ _ h8]

/-- A token containing a colon, or consisting of sign and digit characters
only, is no recognized flag. -/
theorem flagKind?_eq_none (tok : String)
    (h : (':' ∈ tok.data) ∨ (∀ c ∈ tok.data, c = '-' ∨ c.isDigit)) :
    flagKind? tok = none := by
  unfold flagKind?
  split_ifs with h1 h2 h3 h4 h5 h6
  · rcases h1 with rfl | rfl <;> rcases h with h | h <;> exact absurd h (by decide)
  · rcases h2 with rfl | rfl <;> rcases h with h | h <;> exact absurd h (by decide)
  · rcases h3 with rfl | rfl <;> rcases h with h | h <;> exact absurd h (by decide)
  · rcases h4 with rfl | rfl <;> rcases h with h | h <;> exact absurd h (by decide)
  · rcases h5 with rfl | rfl <;> rcases h with h | h <;> exact absurd h (by decide)
  · rcases h6 with rfl | rfl <;> rcases h with h | h <;> exact absurd h (by decide)
  · rfl

/-- `lastIdxOf` misses an absent character. -/
theorem lastIdxOf_eq_none (cs : List Char) (c : Char) (h : c ∉ cs) :
    lastIdxOf cs c = none := by
  induction cs with
  | nil => rfl
  | cons x t ih =>
    have hx : x ≠ c := fun hq => h (hq ▸ List.mem_cons_self x t)
    have ht : c ∉ t := fun hq => h (List.mem_cons_of_mem x hq)
    simp only [lastIdxOf, ih ht]
    rw [if_neg hx]

/-- `lastIdxOf` finds the separator when the suffix is free of it. -/
theorem lastIdxOf_append (xs ys : List Char) (c : Char) (hys : c ∉ ys) :
    lastIdxOf (xs ++ c :: ys) c = some xs.length := by
  induction xs with
  | nil =>
    show lastIdxOf (c :: ys) c = some 0
    have h1 : lastIdxOf (c :: ys) c
        = match lastIdxOf ys c with
          | some i => some (i + 1)
          | none => if c = c then some 0 else none := rfl
    rw [h1, lastIdxOf_eq_none ys c hys, if_pos rfl]
  | cons x t ih =>
    show lastIdxOf (x :: (t ++ c :: ys)) c = some (x :: t).length
    have h1 : lastIdxOf (x :: (t ++ c :: ys)) c
        = match lastIdxOf (t ++ c :: ys) c with
          | some i => some (i + 1)
          | none => if x = c then some 0 else none := rfl
    rw [h1, ih]
    rfl

/-- An absent character makes `contains` false. -/
theorem contains_eq_false (cs : List Char) (c : Char) (h : c ∉ cs) :
    cs.contains c = false := by
  rw [Bool.eq_false_iff]
  intro hc
  obtain ⟨a, ha, hbeq⟩ := List.contains_iff_exists_mem_beq.mp hc
  cases beq_iff_eq.mp hbeq
  exact h ha

/-- `SplitHostPort` on a colon-free host followed by a colon and a
colon-and-bracket-free port part. -/
theorem splitHostPortChars_concat (hostd pd : List Char)
    (hh : ∀ c ∈ hostd, c ≠ ':' ∧ c ≠ '[' ∧ c ≠ ']')
    (hpd : ∀ c ∈ pd, c ≠ ':' ∧ c ≠ '[' ∧ c ≠ ']') :
    splitHostPortChars (hostd ++ ':' :: pd) = some (hostd, pd) := by
  have hc1 : ':' ∉ pd := fun hq => (hpd _ hq).1 rfl
  have hc2 : ':' ∉ hostd := fun hq => (hh _ hq).1 rfl
  have hhead : ¬(hostd.head? = some '[') := by
    cases hd : hostd with
    | nil => simp
    | cons a t =>
      have ha := (hh a (by rw [hd]; simp)).2.1
      simp [ha]
  have htake : (hostd ++ ':' :: pd).take hostd.length = hostd := List.take_left _ _
  have hlb : '[' ∉ hostd ++ ':' :: pd := by
    intro hq
    rcases List.mem_append.mp hq with hq | hq
    · exact (hh _ hq).2.1 rfl
    · rcases List.mem_cons.mp hq with hq | hq
      · exact absurd hq.symm (by decide)
      · exact (hpd _ hq).2.1 rfl
  have hrb : ']' ∉ hostd ++ ':' :: pd := by
    intro hq
    rcases List.mem_append.mp hq with hq | hq
    · exact (hh _ hq).2.2 rfl
    · rcases List.mem_cons.mp hq with hq | hq
      · exact absurd hq.symm (by decide)
      · exact (hpd _ hq).2.2 rfl
  have hcf1 : containsFrom (hostd ++ ':' :: pd) '[' 0 = false := by
    unfold containsFrom
    rw [List.drop_zero]
    exact contains_eq_false _ _ hlb
  have hcf2 : containsFrom (hostd ++ ':' :: pd) ']' 0 = false := by
    unfold containsFrom
    rw [List.drop_zero]
    exact contains_eq_false _ _ hrb
  have hdrop : (hostd ++ ':' :: pd).drop (hostd.length + 1) = pd := by
    rw [show hostd ++ ':' :: pd = (hostd ++ [':']) ++ pd from by simp,
      show hostd.length + 1 = (hostd ++ [':']).length from by simp]
    exact List.drop_left _ _
  unfold splitHostPortChars
  rw [lastIdxOf_append hostd pd ':' hc1]
  simp [hhead, htake, hcf1, hcf2, hdrop, hc2, contains_eq_false hostd ':' hc2]

/-- `parseHostPort` undoes the `host:port` rendering for a well-formed
host and a port in the 64-bit range. -/
theorem parseHostPort_roundtrip (host : String) (p : Int)
    (hp1 : -(2 ^ 63) ≤ p) (hp2 : p ≤ 2 ^ 63 - 1)
    (hh : ∀ c ∈ host.data, c ≠ ' ' ∧ c ≠ ':' ∧ c ≠ '[' ∧ c ≠ ']') :
    parseHostPort (host ++ ":" ++ intToString p) = (host, p) := by
  have hdata : (host ++ ":" ++ intToString p).data
      = host.data ++ ':' :: (intToString p).data := by
    simp [String.data_append]
  have hpd : ∀ c ∈ (intToString p).data, c ≠ ':' ∧ c ≠ '[' ∧ c ≠ ']' := by
    intro c hc
    obtain ⟨_, h2, h3, h4⟩ := intToString_no_special p c hc
    exact ⟨h2, h3, h4⟩
  have hsplit : splitHostPort (host ++ ":" ++ intToString p)
      = some (host, intToString p) := by
    unfold splitHostPort
    rw [hdata, splitHostPortChars_concat host.data (intToString p).data
      (fun c hc => ⟨(hh c hc).2.1, (hh c hc).2.2.1, (hh c hc).2.2.2⟩) hpd]
    simp [mk_data]
  unfold parseHostPort
  rw [hsplit]
  simp only
  rw [atoi_intToString p hp1 hp2]

/-- `parseHostPort` returns a colon-free input whole, with port 0. -/
theorem parseHostPort_no_colon (host : String) (h : ':' ∉ host.data) :
    parseHostPort host = (host, 0) := by
  unfold parseHostPort splitHostPort splitHostPortChars
  rw [lastIdxOf_eq_none host.data ':' h]
  rfl

/-- Facts about a named scheduling algorithm: its flag is itself, it has no
space, and it is no recognized parse flag. -/
theorem scheduler_facts (t : String)
    (h : t ∈ ["rr", "wrr", "lc", "wlc", "lblc", "lblcr", "dh", "sh", "sed", "nq"]) :
    serviceSchedulerFlagD t = t ∧ (' ' ∉ t.data) ∧ flagKind? t = none := by
  simp only [List.mem_cons, List.not_mem_nil, or_false] at h
  rcases h with rfl | rfl | rfl | rfl | rfl | rfl | rfl | rfl | rfl | rfl <;>
    exact ⟨by decide, by decide, by decide⟩

/-- A token containing a newline character is no recognized flag. -/
theorem flagKind?_eq_none_of_newline (tok : String) (h : '\n' ∈ tok.data) :
    flagKind? tok = none := by
  unfold flagKind?
  split_ifs with h1 h2 h3 h4 h5 h6
  · rcases h1 with rfl | rfl <;> exact absurd h (by decide)
  · rcases h2 with rfl | rfl <;> exact absurd h (by decide)
  · rcases h3 with rfl | rfl <;> exact absurd h (by decide)
  · rcases h4 with rfl | rfl <;> exact absurd h (by decide)
  · rcases h5 with rfl | rfl <;> exact absurd h (by decide)
  · rcases h6 with rfl | rfl <;> exact absurd h (by decide)
  · rfl

/-- A token that does not open with a dash is no recognized flag. -/
theorem flagKind?_eq_none_of_no_dash (tok : String) (h : ¬ tok.data.head? = some '-') :
    flagKind? tok = none := by
  unfold flagKind?
  split_ifs with h1 h2 h3 h4 h5 h6
  · rcases h1 with rfl | rfl <;> exact absurd rfl h
  · rcases h2 with rfl | rfl <;> exact absurd rfl h
  · rcases h3 with rfl | rfl <;> exact absurd rfl h
  · rcases h4 with rfl | rfl <;> exact absurd rfl h
  · rcases h5 with rfl | rfl <;> exact absurd rfl h
  · rcases h6 with rfl | rfl <;> exact absurd rfl h
  · rfl

/-- A defined forwarder entry maps to one of the three method flags. -/
theorem forwarder_flag_range (f : String) (h : (ServerForwarderFlag f).isSome) :
    serverForwarderFlagD f = "-g" ∨ serverForwarderFlagD f = "-i"
      ∨ serverForwarderFlagD f = "-m" := by
  unfold ServerForwarderFlag at h
  unfold serverForwarderFlagD ServerForwarderFlag
  split_ifs at h ⊢ <;> simp_all

/-- The line-tail token never contains a space. -/
theorem srvTail_no_space (l : List Server) : ' ' ∉ (srvTail l).data := by
  cases l with
  | nil => decide
  | cons a t =>
    show ' ' ∉ ("\n-a" : String).data
    decide

/-- The line-tail token always contains the newline. -/
theorem srvTail_newline (l : List Server) : '\n' ∈ (srvTail l).data := by
  cases l with
  | nil => decide
  | cons a t =>
    show '\n' ∈ ("\n-a" : String).data
    decide

/-- The line-tail token is no recognized flag. -/
theorem srvTail_flagKind (l : List Server) : flagKind? (srvTail l) = none := by
  cases l with
  | nil => decide
  | cons a t =>
    show flagKind? "\n-a" = none
    decide

/-- Unfolding of `glueSp` on two or more segments. -/
theorem glueSp_cons_cons (x y : List Char) (ys : List (List Char)) :
    glueSp (x :: y :: ys) = x ++ ' ' :: glueSp (y :: ys) := rfl

/-- A prefix of the first segment moves out of the glue. -/
theorem glueSp_absorb (xs ys : List Char) (ts : List (List Char)) :
    glueSp ((xs ++ ys) :: ts) = xs ++ glueSp (ys :: ts) := by
  cases ts with
  | nil => rfl
  | cons t ts' => simp [glueSp_cons_cons, List.append_assoc]

/-- `splitChars` undoes `glueSp` on space-free segments. -/
theorem splitChars_glueSp (ls : List (List Char)) (hne : ls ≠ [])
    (h : ∀ x ∈ ls, ' ' ∉ x) : splitChars ' ' (glueSp ls) = ls := by
  induction ls with
  | nil => exact absurd rfl hne
  | cons x xs ih =>
    cases xs with
    | nil => exact splitChars_no_sep ' ' x (h x (by simp))
    | cons y ys =>
      rw [glueSp_cons_cons, splitChars_append ' ' x _ (h x (by simp)),
        ih (by simp) (fun z hz => h z (by simp [hz]))]

/-- Folding string concatenation accumulates the data lists. -/
theorem foldl_append_data (ls : List String) : ∀ (a : String),
    (List.foldl (fun r s => r ++ s) a ls).data = a.data ++ (ls.map String.data).join := by
  induction ls with
  | nil => intro a; simp
  | cons x xs ih =>
    intro a
    show (List.foldl (fun r s => r ++ s) (a ++ x) xs).data = _
    rw [ih (a ++ x)]
    simp [String.data_append, List.join, List.append_assoc]

/-- The data of a joined string list is the join of the data lists. -/
theorem join_data (ls : List String) :
    (String.join ls).data = (ls.map String.data).join := by
  show (List.foldl (fun r s => r ++ s) "" ls).data = _
  rw [foldl_append_data]
  rfl

/-- The data of the serialized server lines, led by the newline that closes
the previous line, is the glued token list of `srvToks`. -/
theorem srv_lines_data (TF H : String) (P : Int) (l : List Server) :
    '\n' :: ((l.map (fun r => "-a " ++ TF ++ " " ++ H ++ ":" ++ intToString P
        ++ " -r " ++ Server.toString r ++ "\n")).map String.data).join
      = glueSp ((srvTail l).data
          :: (srvToks TF (H ++ ":" ++ intToString P) l).map String.data) := by
  induction l with
  | nil => rfl
  | cons r rest ih =>
    have dra : ("-a " : String).data = ['-', 'a', ' '] := rfl
    have drr : (" -r " : String).data = [' ', '-', 'r', ' '] := rfl
    have drw : (" -w " : String).data = [' ', '-', 'w', ' '] := rfl
    have dsp : (" " : String).data = [' '] := rfl
    have dcolon : (":" : String).data = [':'] := rfl
    have hw : (intToString r.Weight ++ srvTail rest).data
        = (intToString r.Weight).data ++ (srvTail rest).data := by
      rw [String.data_append]
    rw [show srvTail (r :: rest) = "\n-a" from rfl,
      show srvToks TF (H ++ ":" ++ intToString P) (r :: rest)
        = TF :: (H ++ ":" ++ intToString P) :: "-r" :: r.getHostPort
          :: serverForwarderFlagD r.Forwarder :: "-w"
          :: (intToString r.Weight ++ srvTail rest)
          :: srvToks TF (H ++ ":" ++ intToString P) rest from rfl]
    simp only [List.map_cons, List.join]
    rw [glueSp_cons_cons, glueSp_cons_cons, glueSp_cons_cons, glueSp_cons_cons,
      glueSp_cons_cons, glueSp_cons_cons, glueSp_cons_cons, hw, glueSp_absorb, ← ih]
    simp [String.data_append, Server.toString, dra, drr, drw, dsp, dcolon,
      List.append_assoc]

/-- Every token contributed by the server lines is space-free, given
well-formed hosts and legal forwarders. -/
theorem srvToks_no_space (TF HPc : String) (l : List Server)
    (hTFsp : ' ' ∉ TF.data) (hHPc : ' ' ∉ HPc.data)
    (hwf : ∀ r ∈ l, (∀ c ∈ r.Host.data, c ≠ ' ' ∧ c ≠ ':')
        ∧ (ServerForwarderFlag r.Forwarder).isSome) :
    ∀ tok ∈ srvToks TF HPc l, ' ' ∉ tok.data := by
  induction l with
  | nil => intro tok htok; simp [srvToks] at htok
  | cons r rest ih =>
    intro tok htok
    obtain ⟨hrh, hrf⟩ := hwf r (by simp)
    simp only [srvToks, List.mem_cons] at htok
    rcases htok with rfl | rfl | rfl | rfl | rfl | rfl | rfl | htok
    · exact hTFsp
    · exact hHPc
    · decide
    · unfold Server.getHostPort
      by_cases hp0 : r.Port = 0
      · rw [if_pos hp0]
        exact fun hq => (hrh _ hq).1 rfl
      · rw [if_neg hp0]
        intro hq
        simp only [String.data_append] at hq
        rcases List.mem_append.mp hq with hq | hq
        · rcases List.mem_append.mp hq with hq | hq
          · exact (hrh _ hq).1 rfl
          · exact absurd hq (by decide)
        · exact (intToString_no_special _ _ hq).1 rfl
    · rcases forwarder_flag_range r.Forwarder hrf with hf | hf | hf <;> rw [hf] <;> decide
    · decide
    · intro hq
      rw [String.data_append] at hq
      rcases List.mem_append.mp hq with hq | hq
      · exact (intToString_no_special _ _ hq).1 rfl
      · exact srvTail_no_space rest hq
    · exact ih (fun r' hr' => hwf r' (by simp [hr'])) tok htok

/-- Running the loop over the server-line tokens leaves the state alone:
the only recognized flag there is the repeated type flag, whose value
re-parses to the host and port the state already carries. -/
theorem parseLoop_srvToks (TF HPc : String) (k : FlagKind) (st : Service)
    (hTFk : flagKind? TF = some k)
    (hHPcflag : flagKind? HPc = none)
    (happst : applyFlag k HPc st = st)
    (l : List Server)
    (hwf : ∀ r ∈ l, flagKind? r.getHostPort = none
        ∧ (ServerForwarderFlag r.Forwarder).isSome) :
    parseLoop (srvToks TF HPc l) st = some st := by
  induction l with
  | nil => rfl
  | cons r rest ih =>
    obtain ⟨hrhp, hrf⟩ := hwf r (by simp)
    show parseLoop (TF :: HPc :: "-r" :: r.getHostPort :: serverForwarderFlagD r.Forwarder
        :: "-w" :: (intToString r.Weight ++ srvTail rest) :: srvToks TF HPc rest) st = some st
    rw [parseLoop_cons_some TF HPc _ _ k hTFk, happst]
    rw [parseLoop_cons_none HPc _ _ hHPcflag]
    rw [parseLoop_cons_none "-r" _ _ (by decide)]
    rw [parseLoop_cons_none _ _ _ hrhp]
    have hfwd : flagKind? (serverForwarderFlagD r.Forwarder) = none := by
      rcases forwarder_flag_range r.Forwarder hrf with hf | hf | hf <;> rw [hf] <;> decide
    rw [parseLoop_cons_none _ _ _ hfwd]
    rw [parseLoop_cons_none "-w" _ _ (by decide)]
    have hwglue : flagKind? (intToString r.Weight ++ srvTail rest) = none := by
      apply flagKind?_eq_none_of_newline
      rw [String.data_append]
      exact List.mem_append.mpr (Or.inr (srvTail_newline rest))
    rw [parseLoop_cons_none _ _ _ hwglue]
    exact ih (fun r' hr' => hwf r' (by simp [hr']))

/-- Core of the round-trip: serializing a service with a named type and
scheduler, nonzero persistence, empty netmask, 64-bit port and persistence
values, a well-formed host and well-formed servers, then parsing it back,
recovers the record (the parser always leaves the server list empty). -/
theorem c1_core (sHost : String) (sPort sPers : Int) (sSched TY TF HParg : String)
    (k : FlagKind) (l : List Server)
    (hTF : serviceTypeFlagD TY = TF)
    (hTFsp : ' ' ∉ TF.data)
    (hTFk : flagKind? TF = some k)
    (happ : ∀ (v : String) (svc : Service), applyFlag k v svc
        = { svc with Type' := TY, Host := (parseHostPort v).1, Port := (parseHostPort v).2 })
    (hsch : sSched ∈ ["rr", "wrr", "lc", "wlc", "lblc", "lblcr", "dh", "sh", "sed", "nq"])
    (hpers : sPers ≠ 0)
    (hpe1 : -(2 ^ 63) ≤ sPers) (hpe2 : sPers ≤ 2 ^ 63 - 1)
    (hpr1 : -(2 ^ 63) ≤ sPort) (hpr2 : sPort ≤ 2 ^ 63 - 1)
    (hhost : ∀ c ∈ sHost.data, c ≠ ' ' ∧ c ≠ ':' ∧ c ≠ '[' ∧ c ≠ ']')
    (hHPeq : (⟨sHost, sPort, TY, sSched, sPers, "", l⟩ : Service).getHostPort = HParg)
    (hHPsp : ' ' ∉ HParg.data)
    (hHPflag : flagKind? HParg = none)
    (hHPparse : parseHostPort HParg = (sHost, sPort))
    (hwf : ∀ r ∈ l, (∀ c ∈ r.Host.data, c ≠ ' ' ∧ c ≠ ':')
        ∧ (ServerForwarderFlag r.Forwarder).isSome
        ∧ flagKind? r.getHostPort = none) :
    parseService (Service.toString ⟨sHost, sPort, TY, sSched, sPers, "", l⟩)
      = some ⟨sHost, sPort, TY, sSched, sPers, "", []⟩ := by
  obtain ⟨hsfd, hssp, hsfk⟩ := scheduler_facts sSched hsch
  have demp : ("" : String).data = [] := rfl
  have dA : ("-A " : String).data = ['-', 'A', ' '] := rfl
  have dA2 : ("-A" : String).data = ['-', 'A'] := rfl
  have dsp : (" " : String).data = [' '] := rfl
  have dms : (" -s " : String).data = [' ', '-', 's', ' '] := rfl
  have ds2 : ("-s" : String).data = ['-', 's'] := rfl
  have dnl : ("\n" : String).data = ['\n'] := rfl
  have dp : ("-p" : String).data = ['-', 'p'] := rfl
  have dcolon : (":" : String).data = [':'] := rfl
  have dra : ("-a " : String).data = ['-', 'a', ' '] := rfl
  have drr : (" -r " : String).data = [' ', '-', 'r', ' '] := rfl
  have hHPc_parse : parseHostPort (sHost ++ ":" ++ intToString sPort) = (sHost, sPort) :=
    parseHostPort_roundtrip sHost sPort hpr1 hpr2 hhost
  have hHPcdata : (sHost ++ ":" ++ intToString sPort).data
      = sHost.data ++ ':' :: (intToString sPort).data := by
    simp [String.data_append, dcolon]
  have hHPcsp : ' ' ∉ (sHost ++ ":" ++ intToString sPort).data := by
    rw [hHPcdata]
    intro hq
    rcases List.mem_append.mp hq with hq | hq
    · exact (hhost _ hq).1 rfl
    · rcases List.mem_cons.mp hq with hq | hq
      · exact absurd hq (by decide)
      · exact (intToString_no_special _ _ hq).1 rfl
  have hHPcflag : flagKind? (sHost ++ ":" ++ intToString sPort) = none := by
    apply flagKind?_eq_none
    left
    rw [hHPcdata]
    exact List.mem_append.mpr (Or.inr (List.mem_cons_self _ _))
  have hw7 : ' ' ∉ (intToString sPers).data :=
    fun hq => (intToString_no_special _ _ hq).1 rfl
  have hPflag : flagKind? (intToString sPers) = none :=
    flagKind?_eq_none _ (Or.inr (intToString_chars sPers))
  have htail : flagKind? (srvTail l) = none := srvTail_flagKind l
  have hglue : glueSp ((["-A", TF, HParg, "-s", sSched, "-p", intToString sPers, srvTail l]
        ++ srvToks TF (sHost ++ ":" ++ intToString sPort) l).map String.data)
      = ("-A" : String).data ++ ' ' :: (TF.data ++ ' ' :: (HParg.data ++ ' '
        :: (("-s" : String).data ++ ' ' :: (sSched.data ++ ' '
        :: (("-p" : String).data ++ ' ' :: ((intToString sPers).data ++ ' '
        :: ('\n' :: ((l.map (fun r => "-a " ++ TF ++ " " ++ sHost ++ ":" ++ intToString sPort
              ++ " -r " ++ Server.toString r ++ "\n")).map String.data).join))))))) := by
    simp only [List.cons_append, List.nil_append, List.map_cons]
    rw [glueSp_cons_cons, glueSp_cons_cons, glueSp_cons_cons, glueSp_cons_cons,
      glueSp_cons_cons, glueSp_cons_cons, glueSp_cons_cons,
      ← srv_lines_data TF sHost sPort l]
    simp
  have hdata : (Service.toString ⟨sHost, sPort, TY, sSched, sPers, "", l⟩).data
      = glueSp ((["-A", TF, HParg, "-s", sSched, "-p", intToString sPers, srvTail l]
          ++ srvToks TF (sHost ++ ":" ++ intToString sPort) l).map String.data) := by
    rw [hglue]
    unfold Service.toString Service.getPersistence Service.getNetmask
    dsimp only
    rw [hHPeq, if_pos hpers, if_neg (by decide : ¬(("" : String) ≠ ""))]
    simp only [hTF, hsfd]
    rw [join_data]
    simp only [List.map_cons, List.join]
    simp [String.data_append, String.intercalate, String.intercalate.go,
      demp, dA, dA2, dsp, dms, ds2, dnl, dp, dcolon, dra, drr, List.append_assoc]
  have hsp : ∀ x ∈ (["-A", TF, HParg, "-s", sSched, "-p", intToString sPers, srvTail l]
      ++ srvToks TF (sHost ++ ":" ++ intToString sPort) l), ' ' ∉ x.data := by
    intro x hx
    rcases List.mem_append.mp hx with hx | hx
    · simp only [List.mem_cons, List.not_mem_nil, or_false] at hx
      rcases hx with rfl | rfl | rfl | rfl | rfl | rfl | rfl | rfl
      · decide
      · exact hTFsp
      · exact hHPsp
      · decide
      · exact hssp
      · decide
      · exact hw7
      · exact srvTail_no_space l
    · exact srvToks_no_space TF _ l hTFsp hHPcsp
        (fun r hr => ⟨(hwf r hr).1, (hwf r hr).2.1⟩) x hx
  have htokens : splitGo (Service.toString ⟨sHost, sPort, TY, sSched, sPers, "", l⟩)
      = ["-A", TF, HParg, "-s", sSched, "-p", intToString sPers, srvTail l]
        ++ srvToks TF (sHost ++ ":" ++ intToString sPort) l := by
    unfold splitGo
    rw [hdata, splitChars_glueSp _ (by simp) (by
      intro x hx
      simp only [List.mem_map] at hx
      obtain ⟨tok, htok, rfl⟩ := hx
      exact hsp tok htok)]
    simp only [List.map_map]
    rw [show (String.mk ∘ String.data) = id from funext mk_data, List.map_id]
  unfold parseService
  rw [htokens]
  simp only [List.cons_append, List.nil_append]
  rw [parseLoop_cons_none "-A" _ _ (by decide)]
  rw [parseLoop_cons_some TF HParg _ _ k hTFk]
  rw [parseLoop_cons_none HParg _ _ hHPflag]
  rw [parseLoop_cons_some "-s" sSched _ _ .sched (by decide)]
  rw [parseLoop_cons_none sSched _ _ hsfk]
  rw [parseLoop_cons_some "-p" (intToString sPers) _ _ .pers (by decide)]
  rw [parseLoop_cons_none (intToString sPers) _ _ hPflag]
  rw [parseLoop_cons_none (srvTail l) _ _ htail]
  have hfin : applyFlag .pers (intToString sPers)
      (applyFlag .sched sSched (applyFlag k HParg
        { Host := "", Port := 0, Type' := "tcp", Scheduler := "wlc",
          Persistence := 300, Netmask := "", Servers := [] }))
      = ⟨sHost, sPort, TY, sSched, sPers, "", []⟩ := by
    rw [happ]
    simp [applyFlag, hHPparse, atoi_intToString sPers hpe1 hpe2]
  rw [hfin]
  have happfin : applyFlag k (sHost ++ ":" ++ intToString sPort)
      (⟨sHost, sPort, TY, sSched, sPers, "", []⟩ : Service)
      = ⟨sHost, sPort, TY, sSched, sPers, "", []⟩ := by
    rw [happ, hHPc_parse]
  exact parseLoop_srvToks TF (sHost ++ ":" ++ intToString sPort) k
    ⟨sHost, sPort, TY, sSched, sPers, "", []⟩ hTFk hHPcflag happfin l
    (fun r hr => ⟨(hwf r hr).2.2, (hwf r hr).2.1⟩)

/-- Counterexample to C1 as stated: a valid service with `Persistence = 0`
(and likewise empty-string defaults) does not round-trip — the parser's
composite-literal default turns it into 300. -/
theorem c1_counterexample :
    c1CexService.Validate = none
    ∧ c1CexService.Persistence = 0
    ∧ (parseService c1CexService.toString).map (fun t => t.Persistence) = some 300
    ∧ (300 : Int) ≠ c1CexService.Persistence := by
  refine ⟨rfl, rfl, rfl, by decide⟩

/-- C1 (amended): for a service that passes `Validate`, has a named
(non-default) type and scheduler, nonzero persistence, empty netmask, port
and persistence representable in a 64-bit int (as every Go value is), a host
free of space, colon and bracket characters (not opening with a dash when
the port is 0), and servers whose hosts are likewise well formed with legal
forwarding methods, parsing the serialized form recovers the fields Host,
Port, Type, Scheduler, Persistence and Netmask exactly (the parser always
returns an empty server list). -/
theorem c1_roundtrip_amended (s : Service)
    (hval : s.Validate = none)
    (htyp : s.Type' ∈ ["tcp", "udp", "fwmark"])
    (hsch : s.Scheduler ∈ ["rr", "wrr", "lc", "wlc", "lblc", "lblcr", "dh", "sh", "sed", "nq"])
    (hpers : s.Persistence ≠ 0)
    (hmask : s.Netmask = "")
    (hportr : -(2 ^ 63) ≤ s.Port ∧ s.Port ≤ 2 ^ 63 - 1)
    (hpersr : -(2 ^ 63) ≤ s.Persistence ∧ s.Persistence ≤ 2 ^ 63 - 1)
    (hhost : ∀ c ∈ s.Host.data, c ≠ ' ' ∧ c ≠ ':' ∧ c ≠ '[' ∧ c ≠ ']')
    (hhost0 : s.Port = 0 → ¬ s.Host.data.head? = some '-')
    (hsrv : ∀ r ∈ s.Servers,
      (∀ c ∈ r.Host.data, c ≠ ' ' ∧ c ≠ ':')
      ∧ (ServerForwarderFlag r.Forwarder).isSome
      ∧ (r.Port = 0 → ¬ r.Host.data.head? = some '-')) :
    parseService s.toString = some { s with Servers := [] } := by
  obtain ⟨sHost, sPort, sType, sSched, sPers, sMask, sServs⟩ := s
  dsimp only at htyp hsch hpers hmask hportr hpersr hhost hhost0 hsrv ⊢
  subst hmask
  obtain ⟨hpr1, hpr2⟩ := hportr
  obtain ⟨hpe1, hpe2⟩ := hpersr
  have hwf : ∀ r ∈ sServs, (∀ c ∈ r.Host.data, c ≠ ' ' ∧ c ≠ ':')
      ∧ (ServerForwarderFlag r.Forwarder).isSome ∧ flagKind? r.getHostPort = none := by
    intro r hr
    obtain ⟨h1, h2, h3⟩ := hsrv r hr
    refine ⟨h1, h2, ?_⟩
    unfold Server.getHostPort
    by_cases hp0 : r.Port = 0
    · rw [if_pos hp0]
      exact flagKind?_eq_none_of_no_dash _ (h3 hp0)
    · rw [if_neg hp0]
      apply flagKind?_eq_none
      left
      simp [String.data_append]
  simp only [List.mem_cons, List.not_mem_nil, or_false] at htyp
  by_cases hp0 : sPort = 0
  · have hHPeq : ∀ t, (⟨sHost, sPort, t, sSched, sPers, "", sServs⟩ : Service).getHostPort
        = sHost := by
      intro t
      simp [Service.getHostPort, hp0]
    have hHPsp : ' ' ∉ sHost.data := fun hq => (hhost _ hq).1 rfl
    have hHPflag : flagKind? sHost = none := flagKind?_eq_none_of_no_dash _ (hhost0 hp0)
    have hHPparse : parseHostPort sHost = (sHost, sPort) := by
      rw [hp0]
      exact parseHostPort_no_colon sHost (fun hq => (hhost _ hq).2.1 rfl)
    rcases htyp with rfl | rfl | rfl
    · exact c1_core sHost sPort sPers sSched "tcp" "-t" sHost .tcp sServs rfl (by decide)
        (by decide) (fun v svc => rfl) hsch hpers hpe1 hpe2 hpr1 hpr2 hhost
        (hHPeq _) hHPsp hHPflag hHPparse hwf
    · exact c1_core sHost sPort sPers sSched "udp" "-u" sHost .udp sServs rfl (by decide)
        (by decide) (fun v svc => rfl) hsch hpers hpe1 hpe2 hpr1 hpr2 hhost
        (hHPeq _) hHPsp hHPflag hHPparse hwf
    · exact c1_core sHost sPort sPers sSched "fwmark" "-f" sHost .fwmark sServs rfl (by decide)
        (by decide) (fun v svc => rfl) hsch hpers hpe1 hpe2 hpr1 hpr2 hhost
        (hHPeq _) hHPsp hHPflag hHPparse hwf
  · have hHPeq : ∀ t, (⟨sHost, sPort, t, sSched, sPers, "", sServs⟩ : Service).getHostPort
        = sHost ++ ":" ++ intToString sPort := by
      intro t
      simp [Service.getHostPort, hp0]
    have hHPcdata : (sHost ++ ":" ++ intToString sPort).data
        = sHost.data ++ ':' :: (intToString sPort).data := by
      simp [String.data_append]
    have hHPsp : ' ' ∉ (sHost ++ ":" ++ intToString sPort).data := by
      rw [hHPcdata]
      intro hq
      rcases List.mem_append.mp hq with hq | hq
      · exact (hhost _ hq).1 rfl
      · rcases List.mem_cons.mp hq with hq | hq
        · exact absurd hq (by decide)
        · exact (intToString_no_special _ _ hq).1 rfl
    have hHPflag : flagKind? (sHost ++ ":" ++ intToString sPort) = none := by
      apply flagKind?_eq_none
      left
      rw [hHPcdata]
      exact List.mem_append.mpr (Or.inr (List.mem_cons_self _ _))
    have hHPparse : parseHostPort (sHost ++ ":" ++ intToString sPort) = (sHost, sPort) :=
      parseHostPort_roundtrip sHost sPort hpr1 hpr2 hhost
    rcases htyp with rfl | rfl | rfl
    · exact c1_core sHost sPort sPers sSched "tcp" "-t" _ .tcp sServs rfl (by decide)
        (by decide) (fun v svc => rfl) hsch hpers hpe1 hpe2 hpr1 hpr2 hhost
        (hHPeq _) hHPsp hHPflag hHPparse hwf
    · exact c1_core sHost sPort sPers sSched "udp" "-u" _ .udp sServs rfl (by decide)
        (by decide) (fun v svc => rfl) hsch hpers hpe1 hpe2 hpr1 hpr2 hhost
        (hHPeq _) hHPsp hHPflag hHPparse hwf
    · exact c1_core sHost sPort sPers sSched "fwmark" "-f" _ .fwmark sServs rfl (by decide)
        (by decide) (fun v svc => rfl) hsch hpers hpe1 hpe2 hpr1 hpr2 hhost
        (hHPeq _) hHPsp hHPflag hHPparse hwf

/-- Witness for the amended C1: a concrete udp service carrying one server
round-trips, and so does a port-0 tcp service. -/
theorem c1_witness :
    parseService c1Service.toString = some { c1Service with Servers := [] }
    ∧ parseService c1PortZeroService.toString = some { c1PortZeroService with Servers := [] } :=
  ⟨c1_roundtrip_amended c1Service (by decide) (by decide) (by decide) (by decide)
      (by decide) (by decide) (by decide) (by decide) (by decide) (by decide),
   c1_roundtrip_amended c1PortZeroService (by decide) (by decide) (by decide) (by decide)
      (by decide) (by decide) (by decide) (by decide) (by decide) (by decide)⟩

end GolangLvs
